import Mathlib

/-!
Verification of the avast/apkparser library: a shallow embedding of the
binary-XML decoder, the string pool, and the lenient ZIP reader, with
theorems checking the natural-language specification against the code.

Go byte strings are modelled as `List Nat` (each element a byte value);
machine integers are `Nat`/`Int` with explicit `% 2 ^ 32` where overflow
matters.  Fallible Go code returns `Except ParseErr`.
-/

/-- Go strings and byte slices, as lists of byte values. -/
abbrev GoStr := List Nat

/-- Little-endian assembly of a `uint16` from the first two bytes of a list
(`binary.Read(r, binary.LittleEndian, &u16)`). -/
def leU16 (l : List Nat) : Nat := l.getD 0 0 % 256 + 256 * (l.getD 1 0 % 256)

/-- Little-endian assembly of a `uint32` from the first four bytes of a list. -/
def leU32 (l : List Nat) : Nat :=
  l.getD 0 0 % 256 + 256 * (l.getD 1 0 % 256) + 65536 * (l.getD 2 0 % 256) +
    16777216 * (l.getD 3 0 % 256)

/-- Little-endian byte serialization of a `uint16` (`binary.Write`). -/
def leBytes2 (n : Nat) : List Nat := [n % 256, n / 256 % 256]

/-- Little-endian byte serialization of a `uint32` (`binary.Write`). -/
def leBytes4 (n : Nat) : List Nat :=
  [n % 256, n / 256 % 256, n / 65536 % 256, n / 16777216 % 256]

/-- Error values of the parser.  Each constructor corresponds to one
distinct Go error: `ErrPlainTextManifest` and `ErrEndParsing` are the two
sentinel values compared by identity in the source; every `fmt.Errorf` site
produces a fresh error, modelled by the remaining constructors (all of them
distinct from the sentinels, which is the only property the code relies on).
`eof` stands for the `io` read failures (`EOF`/`ErrUnexpectedEOF`) and the
read-error wrappers around them. -/
inductive ParseErr where
  | eof
  | plainTextManifest
  | endParsing
  | unknownStringFlag (flags : Nat)
  | tooManyStrings (cnt : Nat)
  | wrongStringOffset (remainder : Int)
  | stringNotFound (idx : Nat)
  | stringOffsetOutOfBounds (idx offset : Nat)
  | invalidChunkSize
  | unknownChunk (id : Nat)
  | decodeErr (site : Nat) (inner : ParseErr)
  | headerError (i totalLen : Nat) (inner : ParseErr)
  | chunkError (id : Nat) (inner : ParseErr)
  | chunkNotFullyRead (id : Nat)
  | failedToParse (lastErr : ParseErr)
  | failedToParseNone
  | fileNotFound
  | fuelExhausted
deriving Repr, DecidableEq

/-- Read exactly `k` bytes through an `io.LimitedReader` with remaining
budget `lim` over underlying bytes `data`.  `binary.Read`/`io.ReadFull`
return an error unless `k` bytes are available both in the limit and in the
underlying reader. -/
def readLim (k : Nat) (lim : Int) (data : List Nat) :
    Except ParseErr (List Nat × Int × List Nat) :=
  if (k : Int) ≤ lim ∧ k ≤ data.length then .ok (data.take k, lim - k, data.drop k)
  else .error .eof

/-- `io.CopyN(ioutil.Discard, r, k)` with the error ignored by the caller:
consumes as many bytes as available, up to `k`. -/
def discardUpTo (k : Nat) (lim : Int) (data : List Nat) : Int × List Nat :=
  let m := min k (min lim.toNat data.length)
  ((lim - m : Int), data.drop m)

/-- Strip trailing zero elements, as the Go loops
`for len(buf) != 0 && buf[len(buf)-1] == 0 { buf = buf[:len(buf)-1] }` do. -/
def dropTrailingZeros (l : List Nat) : List Nat :=
  (l.reverse.dropWhile (fun b => b == 0)).reverse

/-- Scalar values Go treats as directly encodable runes: not a surrogate and
not beyond U+10FFFF. -/
def validScalar (r : Nat) : Prop := (r < 0xD800 ∨ 0xE000 ≤ r) ∧ r ≤ 0x10FFFF

instance (r : Nat) : Decidable (validScalar r) := by unfold validScalar; infer_instance

/-- Go `utf8.EncodeRune` / `string([]rune)` conversion for one rune: values
out of range or in the surrogate block encode as U+FFFD. -/
def goEncodeRune (r : Nat) : List Nat :=
  let r := if 0x10FFFF < r ∨ (0xD800 ≤ r ∧ r ≤ 0xDFFF) then 0xFFFD else r
  if r < 0x80 then [r]
  else if r < 0x800 then [0xC0 + r / 64, 0x80 + r % 64]
  else if r < 0x10000 then [0xE0 + r / 4096, 0x80 + r / 64 % 64, 0x80 + r % 64]
  else [0xF0 + r / 262144, 0x80 + r / 4096 % 64, 0x80 + r / 64 % 64, 0x80 + r % 64]

/-- Go `string([]rune)`: UTF-8 encode every rune. -/
def goEncodeRunes (rs : List Nat) : List Nat := (rs.map goEncodeRune).flatten

/-- Go `utf8.DecodeRune`: decode the first rune of a byte list, returning the
rune and the number of bytes consumed.  On any invalid or truncated encoding
it returns `(0xFFFD, 1)`, exactly as the Go implementation does. -/
def goDecodeRune (l : List Nat) : Nat × Nat :=
  match l with
  | [] => (0xFFFD, 1)
  | b0 :: rest =>
    let b0 := b0 % 256
    if b0 < 0x80 then (b0, 1)
    else if b0 < 0xC2 then (0xFFFD, 1)
    else if b0 < 0xE0 then
      match rest with
      | b1 :: _ =>
        let b1 := b1 % 256
        if 0x80 ≤ b1 ∧ b1 ≤ 0xBF then ((b0 - 0xC0) * 64 + (b1 - 0x80), 2)
        else (0xFFFD, 1)
      | [] => (0xFFFD, 1)
    else if b0 < 0xF0 then
      match rest with
      | b1 :: b2 :: _ =>
        let b1 := b1 % 256
        let b2 := b2 % 256
        let lo1 := if b0 = 0xE0 then 0xA0 else 0x80
        let hi1 := if b0 = 0xED then 0x9F else 0xBF
        if (lo1 ≤ b1 ∧ b1 ≤ hi1) ∧ (0x80 ≤ b2 ∧ b2 ≤ 0xBF) then
          ((b0 - 0xE0) * 4096 + (b1 - 0x80) * 64 + (b2 - 0x80), 3)
        else (0xFFFD, 1)
      | _ => (0xFFFD, 1)
    else if b0 < 0xF5 then
      match rest with
      | b1 :: b2 :: b3 :: _ =>
        let b1 := b1 % 256
        let b2 := b2 % 256
        let b3 := b3 % 256
        let lo1 := if b0 = 0xF0 then 0x90 else 0x80
        let hi1 := if b0 = 0xF4 then 0x8F else 0xBF
        if (lo1 ≤ b1 ∧ b1 ≤ hi1) ∧ (0x80 ≤ b2 ∧ b2 ≤ 0xBF) ∧ (0x80 ≤ b3 ∧ b3 ≤ 0xBF) then
          ((b0 - 0xF0) * 262144 + (b1 - 0x80) * 4096 + (b2 - 0x80) * 64 + (b3 - 0x80), 4)
        else (0xFFFD, 1)
      | _ => (0xFFFD, 1)
    else (0xFFFD, 1)

/-- Iterated `utf8.DecodeRune` with explicit fuel (each step consumes at
least one byte, so fuel `l.length` always suffices). -/
def goDecodeRunesAux : Nat → List Nat → List Nat
  | 0, _ => []
  | _, [] => []
  | fuel + 1, l => (goDecodeRune l).1 :: goDecodeRunesAux fuel (l.drop (goDecodeRune l).2)

/-- The rune sequence of a Go string, as produced by `for _, r := range s`. -/
def goDecodeRunes (l : List Nat) : List Nat := goDecodeRunesAux l.length l

/-- Fuelled worker for `goValidUtf8`. -/
def goValidUtf8Aux : Nat → List Nat → Bool
  | _, [] => true
  | 0, _ => false
  | fuel + 1, l =>
    !((goDecodeRune l).1 == 0xFFFD && (goDecodeRune l).2 == 1) &&
      goValidUtf8Aux fuel (l.drop (goDecodeRune l).2)

/-- Go `utf8.Valid` / `utf8.ValidString`: the bytes consist entirely of valid
UTF-8 encodings (equivalently, no decode step hits the error case). -/
def goValidUtf8 (l : List Nat) : Bool := goValidUtf8Aux l.length l

/-- Go `unicode/utf16.Decode`: pair surrogates, replace unpaired surrogate
halves with U+FFFD. -/
def goUtf16Decode : List Nat → List Nat
  | [] => []
  | [v] => [if v < 0xD800 ∨ 0xE000 ≤ v then v else 0xFFFD]
  | v :: w :: rest =>
    if v < 0xD800 ∨ 0xE000 ≤ v then v :: goUtf16Decode (w :: rest)
    else if v < 0xDC00 ∧ 0xDC00 ≤ w ∧ w < 0xE000 then
      (0x10000 + (v - 0xD800) * 1024 + (w - 0xDC00)) :: goUtf16Decode rest
    else 0xFFFD :: goUtf16Decode (w :: rest)

/-- Group a byte list into little-endian `uint16` values
(`binary.Read` into a `[]uint16`). -/
def leU16List : List Nat → List Nat
  | b0 :: b1 :: rest => (b0 % 256 + 256 * (b1 % 256)) :: leU16List rest
  | _ => []

/-- The in-memory string pool: `stringTable` from stringtable.go.  The
memoization cache is behaviorally invisible and is not modelled. -/
structure StringTable where
  isUtf8 : Bool
  stringOffsets : List Nat
  data : List Nat
deriving Repr, DecidableEq

/-- The zero value of `stringTable` (the state before any string-table chunk
was parsed). -/
def emptyStringTable : StringTable := ⟨false, [], []⟩

/-- Read one byte from an unlimited reader (`bytes.Reader`). -/
def goReadByte : List Nat → Except ParseErr (Nat × List Nat)
  | [] => .error .eof
  | b :: rest => .ok (b % 256, rest)

/-- Read one little-endian `uint16` from an unlimited reader. -/
def goReadU16 (r : List Nat) : Except ParseErr (Nat × List Nat) :=
  match goReadByte r with
  | .error e => .error e
  | .ok (b0, r) =>
    match goReadByte r with
    | .error e => .error e
    | .ok (b1, r) => .ok (b0 + 256 * b1, r)

/-- `stringTable.parseString8Len`: Android's one-or-two-byte length varint. -/
def parseString8Len (r : List Nat) : Except ParseErr (Nat × List Nat) :=
  match goReadByte r with
  | .error e => .error e
  | .ok (hi, r) =>
    if hi &&& 0x80 ≠ 0 then
      match goReadByte r with
      | .error e => .error e
      | .ok (lo, r) => .ok ((hi &&& 0x7F) * 256 + lo, r)
    else .ok (hi, r)

/-- `stringTable.parseString8`: skip the UTF-16 length, read the UTF-8 byte
count, read that many bytes and strip trailing NULs.  (This version of the
code does not itself reject invalid UTF-8; `get` sanitizes afterwards.) -/
def parseString8 (r : List Nat) : Except ParseErr GoStr :=
  match parseString8Len r with
  | .error e => .error e
  | .ok (_, r) =>
    match parseString8Len r with
    | .error e => .error e
    | .ok (len8, r) =>
      if len8 ≤ r.length then .ok (dropTrailingZeros ((r.take len8).map (fun b => b % 256)))
      else .error .eof

/-- `stringTable.parseString16`: read the character count (with the high-bit
31-bit extension), read that many UTF-16LE units, decode them, strip trailing
NUL runes and convert to a Go string (UTF-8 bytes). -/
def parseString16 (r : List Nat) : Except ParseErr GoStr :=
  match goReadU16 r with
  | .error e => .error e
  | .ok (hi, r) =>
    match (if hi &&& 0x8000 ≠ 0 then
             match goReadU16 r with
             | .error e => .error e
             | .ok (lo, r) => Except.ok ((hi &&& 0x7FFF) * 65536 + lo, r)
           else Except.ok (hi, r)) with
    | .error e => .error e
    | .ok (chars, r) =>
      if 2 * chars ≤ r.length then
        .ok (goEncodeRunes (dropTrailingZeros (goUtf16Decode (leU16List (r.take (2 * chars))))))
      else .error .eof

/-- The leftover flag bits checked by `parseStringTable`: clear the UTF-8
bit (`flags &^= stringFlagUtf8`) and the sorted bit (`flags &^=
stringFlagSorted`); anything left is an unknown flag. -/
def stringTableFlagsRemaining (flags0 : Nat) : Nat :=
  (if 0 < flags0 &&& 0x100 then flags0 - 0x100 else flags0) -
    ((if 0 < flags0 &&& 0x100 then flags0 - 0x100 else flags0) &&& 0x1)

/-- The computed styles-table size of `parseStringTable`:
`int64(stringOffset) - 7*4 - 4*int64(stringCnt)`. -/
def stringTableRemainder (stringOffset stringCnt : Nat) : Int :=
  (stringOffset : Int) - 7 * 4 - 4 * (stringCnt : Int)

/-- The `stringCnt` adjustment of `parseStringTable` for a negative
remainder: shrink by the overflow count when it divides evenly by 4 and is
small enough, otherwise fail. -/
def stringTableAdjustCnt (remainder : Int) (stringCnt : Nat) : Except ParseErr Nat :=
  if remainder < 0 then
    (if remainder % 4 = 0 ∧ (-remainder).toNat / 4 < stringCnt then
       Except.ok (stringCnt - (-remainder).toNat / 4)
     else Except.error (ParseErr.wrongStringOffset remainder))
  else Except.ok stringCnt

/-- `parseStringTable` from stringtable.go, over a length-limited reader
(`lim` is the chunk body budget `totalLen - chunkHeaderSize`). -/
def parseStringTable (lim0 : Int) (data0 : List Nat) :
    Except ParseErr (StringTable × Int × List Nat) :=
  match readLim 4 lim0 data0 with
  | .error e => .error e
  | .ok (b1, lim1, data1) =>
    match readLim 4 lim1 data1 with
    | .error e => .error e
    | .ok (_, lim2, data2) =>
      match readLim 4 lim2 data2 with
      | .error e => .error e
      | .ok (b3, lim3, data3) =>
        if 0 < stringTableFlagsRemaining (leU32 b3) then
          .error (.unknownStringFlag (stringTableFlagsRemaining (leU32 b3)))
        else
          match readLim 4 lim3 data3 with
          | .error e => .error e
          | .ok (b4, lim4, data4) =>
            match readLim 4 lim4 data4 with
            | .error e => .error e
            | .ok (_, lim5, data5) =>
              if 2 * 1024 * 1024 ≤ leU32 b1 then .error (.tooManyStrings (leU32 b1))
              else
                match stringTableAdjustCnt (stringTableRemainder (leU32 b4) (leU32 b1))
                    (leU32 b1) with
                | .error e => .error e
                | .ok cnt =>
                  match readLim (4 * cnt) lim5 data5 with
                  | .error e => .error e
                  | .ok (offs, lim6, data6) =>
                    match (if 0 < stringTableRemainder (leU32 b4) (leU32 b1) then
                             readLim (stringTableRemainder (leU32 b4) (leU32 b1)).toNat lim6 data6
                           else Except.ok ([], lim6, data6)) with
                    | .error e => .error e
                    | .ok (_, lim7, data7) =>
                      match readLim lim7.toNat lim7 data7 with
                      | .error e => .error e
                      | .ok (tblData, lim8, data8) =>
                        .ok (⟨0 < leU32 b3 &&& 0x100, offs, tblData⟩, lim8, data8)

/-- The replacement applied by `strings.Map` in `stringTable.get`: NUL and
U+FFFD (`utf8.RuneError`) become U+FFFE. -/
def goMapRepl (r : Nat) : Nat := if r = 0 ∨ r = 0xFFFD then 0xFFFE else r

/-- `stringTable.get`: empty for the absent-string marker `0xFFFFFFFF`, an
error out of range or when the stored offset leaves the data blob, otherwise
the decoded string with NUL and invalid code points replaced by U+FFFE. -/
def StringTable.get (t : StringTable) (idx : Nat) : Except ParseErr GoStr :=
  if idx = 0xFFFFFFFF then .ok []
  else if t.stringOffsets.length / 4 % 2 ^ 32 ≤ idx then .error (.stringNotFound idx)
  else
    let offset := leU32 ((t.stringOffsets.drop (4 * idx)).take 4)
    if t.data.length % 2 ^ 32 ≤ offset then .error (.stringOffsetOutOfBounds idx offset)
    else
      match (if t.isUtf8 then parseString8 (t.data.drop offset)
             else parseString16 (t.data.drop offset)) with
      | .error e => .error e
      | .ok res =>
        .ok (if ¬goValidUtf8 res ∨ (goDecodeRunes res).contains 0 then
               goEncodeRunes ((goDecodeRunes res).map goMapRepl)
             else res)

/-- ASCII bytes of `"manifest"`. -/
def strManifest : GoStr := [109, 97, 110, 105, 102, 101, 115, 116]

/-- ASCII bytes of `"package"`. -/
def strPackage : GoStr := [112, 97, 99, 107, 97, 103, 101]

/-- ASCII bytes of `"platformBuildVersion"`. -/
def strPlatformBuildVersion : GoStr :=
  [112, 108, 97, 116, 102, 111, 114, 109, 66, 117, 105, 108, 100, 86, 101, 114, 115, 105, 111, 110]

/-- ASCII bytes of the Android namespace URI
`"http://schemas.android.com/apk/res/android"`. -/
def strAndroidNs : GoStr :=
  [104, 116, 116, 112, 58, 47, 47, 115, 99, 104, 101, 109, 97, 115, 46, 97, 110, 100, 114, 111,
   105, 100, 46, 99, 111, 109, 47, 97, 112, 107, 47, 114, 101, 115, 47, 97, 110, 100, 114, 111,
   105, 100]

/-- ASCII bytes of `"icon"`. -/
def strIcon : GoStr := [105, 99, 111, 110]

/-- ASCII bytes of `"roundIcon"`. -/
def strRoundIcon : GoStr := [114, 111, 117, 110, 100, 73, 99, 111, 110]

/-- ASCII bytes of `"true"`. -/
def strTrue : GoStr := [116, 114, 117, 101]

/-- ASCII bytes of `"false"`. -/
def strFalse : GoStr := [102, 97, 108, 115, 101]

/-- ASCII bytes of `"name"`. -/
def strNameAttr : GoStr := [110, 97, 109, 101]

/-- ASCII bytes of `"versionCode"`. -/
def strVersionCode : GoStr := [118, 101, 114, 115, 105, 111, 110, 67, 111, 100, 101]

/-- ASCII bytes of `"AndroidManifest.xml"`. -/
def strAndroidManifestXml : GoStr :=
  [65, 110, 100, 114, 111, 105, 100, 77, 97, 110, 105, 102, 101, 115, 116, 46, 120, 109, 108]

/-- ASCII bytes of `"resources.arsc"`. -/
def strResourcesArsc : GoStr := [114, 101, 115, 111, 117, 114, 99, 101, 115, 46, 97, 114, 115, 99]

/-- ASCII bytes of the plaintext probe `"<?xml "`. -/
def strXmlProbe : GoStr := [60, 63, 120, 109, 108, 32]

/-- ASCII bytes of the plaintext probe `"<manif"`. -/
def strManifProbe : GoStr := [60, 109, 97, 110, 105, 102]

/-- Chunk id of a string-table chunk. -/
def chunkStringTable : Nat := 0x0001

/-- Chunk id of the resource-id side table chunk. -/
def chunkResourceIds : Nat := 0x0180

/-- Mask shared by all XML event chunk ids. -/
def chunkMaskXml : Nat := 0x0100

/-- Chunk id of a namespace-start chunk. -/
def chunkXmlNsStart : Nat := 0x0100

/-- Chunk id of a namespace-end chunk. -/
def chunkXmlNsEnd : Nat := 0x0101

/-- Chunk id of a tag-start chunk. -/
def chunkXmlTagStart : Nat := 0x0102

/-- Chunk id of a tag-end chunk. -/
def chunkXmlTagEnd : Nat := 0x0103

/-- Chunk id of a text chunk. -/
def chunkXmlText : Nat := 0x0104

/-- Size of the common 8-byte chunk header. -/
def chunkHeaderSize : Nat := 8

/-- An XML attribute as handed to the encoder (`xml.Attr`). -/
structure XmlAttr where
  nameSpace : GoStr
  nameLocal : GoStr
  value : GoStr
deriving Repr, DecidableEq

/-- XML tokens handed to the encoder (`xml.StartElement`, `xml.EndElement`,
`xml.CharData`). -/
inductive Tok where
  | startElement (nameLocal nameSpace : GoStr) (attrs : List XmlAttr)
  | endElement (nameLocal nameSpace : GoStr)
  | charData (text : GoStr)
deriving Repr, DecidableEq

/-- The injected `ManifestEncoder`.  A stateful Go encoder is modelled by
functions of the history of tokens passed to `EncodeToken` so far; each call
may return an error (possibly the `ErrEndParsing` sentinel). -/
structure GoEncoder where
  encodeToken : List Tok → Tok → Option ParseErr
  flush : List Tok → Option ParseErr

/-- Modelled from the spec: a resolved `*ResourceEntry` as used by the XML
decoder; `valueStr` is `e.value.String()` (§4.3 formats the terminal
`ResValue`, e.g. `Null` renders as the empty string).  Go returns the empty
string alongside an error, so the error case carries no string. -/
structure ResourceEntryM where
  valueStr : Except ParseErr GoStr

/-- Modelled from the spec: the `*ResourceTable` injected into the XML
decoder (its decoder lives outside the sources under verification).
`getResourceEntry` is `GetResourceEntry(id)` (ConfigFirst selection) and
`getIconPng` is `GetIconPng(id)` (highest-density `.png` selection); both
may fail, which the XML decoder absorbs (§4.2). -/
structure ResourceTableM where
  getResourceEntry : Nat → Except ParseErr ResourceEntryM
  getIconPng : Nat → Except ParseErr ResourceEntryM

/-- Modelled from the spec: the static framework attribute-name table
(§4.6), a literal `resourceId → name` lookup whose miss returns empty.  Two
exemplar entries are fixed by §8 of the spec (`0x01010003 → "name"`,
`0x0101021B → "versionCode"`); no claim depends on the full table. -/
def getAttributteName (resId : Nat) : GoStr :=
  if resId = 0x01010003 then strNameAttr
  else if resId = 0x0101021B then strVersionCode
  else []

/-- Go `fmt.Sprintf("%x", n)`: lowercase hexadecimal. -/
def goHex (n : Nat) : GoStr := (Nat.toDigits 16 n).map Char.toNat

/-- Go decimal rendering of a natural number. -/
def goDec (n : Nat) : GoStr := (Nat.toDigits 10 n).map Char.toNat

/-- Go `strconv.FormatInt(int64(int32(data)), 10)`: signed decimal of the
32-bit data word. -/
def goFormatInt32 (data : Nat) : GoStr :=
  if data % 2 ^ 32 < 2 ^ 31 then goDec (data % 2 ^ 32)
  else [45] ++ goDec (2 ^ 32 - data % 2 ^ 32)

/-- Modelled from the spec: the `Float` attribute rendering reinterprets the
32-bit data word as IEEE-754 and formats it with shortest round-trip
(`fmt.Sprintf("%g", ...)`, stdlib behavior outside this repository).  It is
abstracted as an injective function of the bit pattern; no claim depends on
the exact text. -/
def goFormatFloatG (bits : Nat) : GoStr := [102, 58] ++ goHex bits

/-- The packed on-disk attribute record `ResAttr` (20 bytes). -/
structure ResAttr where
  namespaceId : Nat
  nameIdx : Nat
  rawValueIdx : Nat
  resSize : Nat
  resRes0 : Nat
  resType : Nat
  resData : Nat
deriving Repr, DecidableEq

/-- `binary.Read` of a `ResAttr` from its 20 little-endian bytes. -/
def parseResAttr (b : List Nat) : ResAttr :=
  ⟨leU32 b, leU32 (b.drop 4), leU32 (b.drop 8), leU16 (b.drop 12), b.getD 14 0 % 256,
    b.getD 15 0 % 256, leU32 (b.drop 16)⟩

/-- The attribute-name and namespace resolution of
`binxmlParseInfo.parseTagStart` (part of the per-attribute loop body):
resource-id lookup first, the string pool as fallback, with the `manifest`
overrides for `package` and `platformBuildVersion*`, and the Android
namespace substitution when a resource-id name is kept with an empty
namespace. -/
def parseTagStartAttrName (strings : StringTable) (resourceIds : List Nat) (name : GoStr)
    (attr : ResAttr) : Except ParseErr (GoStr × GoStr) :=
  let attrName : GoStr :=
    if attr.nameIdx < resourceIds.length then getAttributteName (resourceIds.getD attr.nameIdx 0)
    else []
  match (if attrName = [] ∨ name = strManifest then
           match strings.get attr.nameIdx with
           | .error e =>
             if attrName = [] then Except.error (ParseErr.decodeErr 10 e) else Except.ok []
           | .ok s =>
             if attrName = [] ∨ s = strPackage ∨ strPlatformBuildVersion.isPrefixOf s = true then
               Except.ok s
             else Except.ok []
         else Except.ok ([] : GoStr)) with
  | .error e => .error e
  | .ok attrNameFromStrings =>
    match strings.get attr.namespaceId with
    | .error e => .error (.decodeErr 11 e)
    | .ok attrNameSpace =>
      if attrNameFromStrings = [] then
        (if attrNameSpace = [] then .ok (attrName, strAndroidNs) else .ok (attrName, attrNameSpace))
      else .ok (attrNameFromStrings, attrNameSpace)

/-- The attribute-value formatting switch of
`binxmlParseInfo.parseTagStart`, including the best-effort reference
resolution with the `@<hex>` placeholder. -/
def parseTagStartAttrValue (res : Option ResourceTableM) (strings : StringTable)
    (attrLocalName : GoStr) (attr : ResAttr) : Except ParseErr GoStr :=
  if attr.resType = 0x03 then
    match strings.get attr.rawValueIdx with
    | .error e => .error (.decodeErr 12 e)
    | .ok v => .ok v
  else if attr.resType = 0x12 then .ok (if attr.resData = 0 then strFalse else strTrue)
  else if attr.resType = 0x11 then .ok ([48, 120] ++ goHex attr.resData)
  else if attr.resType = 0x04 then .ok (goFormatFloatG attr.resData)
  else if attr.resType = 0x01 then
    let looked : Option (Except ParseErr ResourceEntryM) :=
      match res with
      | none => none
      | some t =>
        some (if attrLocalName = strIcon ∨ attrLocalName = strRoundIcon then
                t.getIconPng attr.resData
              else t.getResourceEntry attr.resData)
    let vs : GoStr × Bool :=
      match looked with
      | none => ([], false)
      | some (.error _) => ([], false)
      | some (.ok e) =>
        match e.valueStr with
        | .error _ => ([], false)
        | .ok s => (s, true)
    .ok (if vs.2 = false ∧ vs.1 = [] then [64] ++ goHex attr.resData else vs.1)
  else .ok (goFormatInt32 attr.resData)

/-- The per-attribute loop of `binxmlParseInfo.parseTagStart`: read each
20-byte `ResAttr`, skip `attrSize` overflow (error ignored), resolve the
name and namespace, format the value. -/
def parseTagStartAttrs (res : Option ResourceTableM) (strings : StringTable)
    (resourceIds : List Nat) (name : GoStr) (attrSize : Nat) :
    Nat → Int → List Nat → List XmlAttr → Except ParseErr (List XmlAttr × Int × List Nat)
  | 0, lim, data, acc => .ok (acc, lim, data)
  | n + 1, lim, data, acc =>
    match readLim 20 lim data with
    | .error e => .error e
    | .ok (b, lim2, data2) =>
      let attr := parseResAttr b
      let skipped := if 20 < attrSize then discardUpTo (attrSize - 20) lim2 data2
                     else (lim2, data2)
      match parseTagStartAttrName strings resourceIds name attr with
      | .error e => .error e
      | .ok (attrName, attrNs) =>
        match parseTagStartAttrValue res strings attrName attr with
        | .error e => .error e
        | .ok v =>
          parseTagStartAttrs res strings resourceIds name attrSize n skipped.1 skipped.2
            (acc ++ [⟨attrNs, attrName, v⟩])

/-- `binxmlParseInfo.parseTagStart`: header fields, six discarded bytes, tag
name and namespace from the pool, the attribute loop, and one
`EncodeToken(xml.StartElement)` whose error (possibly `ErrEndParsing`) is
returned unwrapped. -/
def parseTagStart (enc : GoEncoder) (res : Option ResourceTableM) (strings : StringTable)
    (resourceIds : List Nat) (lim : Int) (data : List Nat) (hist : List Tok) :
    List Tok × Except ParseErr (Int × List Nat) :=
  match readLim 4 lim data with
  | .error e => (hist, .error e)
  | .ok (b, lim, data) =>
    let namespaceIdx := leU32 b
    match readLim 4 lim data with
    | .error e => (hist, .error e)
    | .ok (b, lim, data) =>
      let nameIdx := leU32 b
      match readLim 2 lim data with
      | .error e => (hist, .error e)
      | .ok (_, lim, data) =>
        match readLim 2 lim data with
        | .error e => (hist, .error e)
        | .ok (b, lim, data) =>
          let attrSize := leU16 b
          match readLim 2 lim data with
          | .error e => (hist, .error e)
          | .ok (b, lim, data) =>
            let attrCount := leU16 b
            let skipped := discardUpTo 6 lim data
            match strings.get namespaceIdx with
            | .error e => (hist, .error (.decodeErr 13 e))
            | .ok nsStr =>
              match strings.get nameIdx with
              | .error e => (hist, .error (.decodeErr 14 e))
              | .ok name =>
                match parseTagStartAttrs res strings resourceIds name attrSize attrCount
                    skipped.1 skipped.2 [] with
                | .error e => (hist, .error e)
                | .ok (attrs, lim, data) =>
                  let tok := Tok.startElement name nsStr attrs
                  match enc.encodeToken hist tok with
                  | some e => (hist ++ [tok], .error e)
                  | none => (hist ++ [tok], .ok (lim, data))

/-- `binxmlParseInfo.parseTagEnd`. -/
def parseTagEnd (enc : GoEncoder) (strings : StringTable) (lim : Int) (data : List Nat)
    (hist : List Tok) : List Tok × Except ParseErr (Int × List Nat) :=
  match readLim 4 lim data with
  | .error e => (hist, .error e)
  | .ok (b, lim, data) =>
    let namespaceIdx := leU32 b
    match readLim 4 lim data with
    | .error e => (hist, .error e)
    | .ok (b, lim, data) =>
      let nameIdx := leU32 b
      match strings.get namespaceIdx with
      | .error e => (hist, .error (.decodeErr 15 e))
      | .ok nsStr =>
        match strings.get nameIdx with
        | .error e => (hist, .error (.decodeErr 16 e))
        | .ok name =>
          let tok := Tok.endElement name nsStr
          match enc.encodeToken hist tok with
          | some e => (hist ++ [tok], .error e)
          | none => (hist ++ [tok], .ok (lim, data))

/-- `binxmlParseInfo.parseText`. -/
def parseText (enc : GoEncoder) (strings : StringTable) (lim : Int) (data : List Nat)
    (hist : List Tok) : List Tok × Except ParseErr (Int × List Nat) :=
  match readLim 4 lim data with
  | .error e => (hist, .error e)
  | .ok (b, lim, data) =>
    let idx := leU32 b
    match strings.get idx with
    | .error e => (hist, .error (.decodeErr 17 e))
    | .ok text =>
      match readLim 8 lim data with
      | .error e => (hist, .error e)
      | .ok (_, lim, data) =>
        let tok := Tok.charData text
        match enc.encodeToken hist tok with
        | some e => (hist ++ [tok], .error e)
        | none => (hist ++ [tok], .ok (lim, data))

/-- `binxmlParseInfo.parseNsStart`: two pool lookups, result discarded. -/
def parseNsStart (strings : StringTable) (lim : Int) (data : List Nat) :
    Except ParseErr (Int × List Nat) :=
  match readLim 4 lim data with
  | .error e => .error e
  | .ok (b, lim, data) =>
    match strings.get (leU32 b) with
    | .error e => .error e
    | .ok _ =>
      match readLim 4 lim data with
      | .error e => .error e
      | .ok (b, lim, data) =>
        match strings.get (leU32 b) with
        | .error e => .error e
        | .ok _ => .ok (lim, data)

/-- `binxmlParseInfo.parseNsEnd`: skip eight bytes. -/
def parseNsEnd (lim : Int) (data : List Nat) : Except ParseErr (Int × List Nat) :=
  match readLim 8 lim data with
  | .error e => .error e
  | .ok (_, lim, data) => .ok (lim, data)

/-- Worker for `parseResourceIds`: read `count` little-endian ids. -/
def parseResourceIdsLoop : Nat → List Nat → Int → List Nat →
    Except ParseErr (List Nat × Int × List Nat)
  | 0, rids, lim, data => .ok (rids, lim, data)
  | n + 1, rids, lim, data =>
    match readLim 4 lim data with
    | .error e => .error e
    | .ok (b, lim, data) => parseResourceIdsLoop n (rids ++ [leU32 b]) lim data

/-- `binxmlParseInfo.parseResourceIds`: the chunk body must be a multiple of
four bytes; `count = uint32(r.N / 4)` ids are appended to the side table. -/
def parseResourceIds (rids : List Nat) (lim : Int) (data : List Nat) :
    Except ParseErr (List Nat × Int × List Nat) :=
  if lim % 4 = 0 then parseResourceIdsLoop ((Int.tdiv lim 4 % 2 ^ 32).toNat) rids lim data
  else .error .invalidChunkSize

/-- `parseChunkHeader` from common.go: `{id:u16, headerLen:u16, totalLen:u32}`
little-endian, or a read error. -/
def parseChunkHeader (data : List Nat) : Except ParseErr (Nat × Nat × Nat × List Nat) :=
  if 8 ≤ data.length then .ok (leU16 data, leU16 (data.drop 2), leU32 (data.drop 4), data.drop 8)
  else .error .eof

/-- Dispatch on a chunk id: the body of the main loop switch of `ParseXml`,
returning the updated string pool, resource-id table, encoder history and
the sub-parser outcome. -/
def parseXmlChunkBody (enc : GoEncoder) (res : Option ResourceTableM) (strings : StringTable)
    (rids : List Nat) (id : Nat) (lim : Int) (data : List Nat) (hist : List Tok) :
    StringTable × List Nat × List Tok × Except ParseErr (Int × List Nat) :=
  if id = chunkStringTable then
    match parseStringTable lim data with
    | .error e => (strings, rids, hist, .error e)
    | .ok (st, lim, data) => (st, rids, hist, .ok (lim, data))
  else if id = chunkResourceIds then
    match parseResourceIds rids lim data with
    | .error e => (strings, rids, hist, .error e)
    | .ok (rids2, lim, data) => (strings, rids2, hist, .ok (lim, data))
  else if id &&& chunkMaskXml = 0 then (strings, rids, hist, .error (.unknownChunk id))
  else
    match readLim 8 lim data with
    | .error e => (strings, rids, hist, .error e)
    | .ok (_, lim, data) =>
      if id = chunkXmlNsStart then (strings, rids, hist, parseNsStart strings lim data)
      else if id = chunkXmlNsEnd then (strings, rids, hist, parseNsEnd lim data)
      else if id = chunkXmlTagStart then
        let r := parseTagStart enc res strings rids lim data hist
        (strings, rids, r.1, r.2)
      else if id = chunkXmlTagEnd then
        let r := parseTagEnd enc strings lim data hist
        (strings, rids, r.1, r.2)
      else if id = chunkXmlText then
        let r := parseText enc strings lim data hist
        (strings, rids, r.1, r.2)
      else (strings, rids, hist, .error (.unknownChunk id))

/-- `x.encoder.Flush()` as the overall result of `ParseXml`. -/
def flushToExcept (enc : GoEncoder) (hist : List Tok) : Except ParseErr Unit :=
  match enc.flush hist with
  | none => .ok ()
  | some e => .error e

/-- The main chunk loop of `ParseXml` (`for i := uint32(0); i < totalLen;
i += len`).  Fuel only bounds the iteration count; every iteration consumes
at least the 8 header bytes, so `data.length + 1` fuel can never run out. -/
def parseXmlLoop (enc : GoEncoder) (res : Option ResourceTableM) :
    Nat → Nat → Nat → StringTable → List Nat → List Nat → List Tok → Except ParseErr Unit
  | 0, _, _, _, _, _, _ => .error .fuelExhausted
  | fuel + 1, totalLen, i, strings, rids, data, hist =>
    if i < totalLen then
      match parseChunkHeader data with
      | .error e => .error (.headerError i totalLen e)
      | .ok (id, _, len, rest) =>
        match parseXmlChunkBody enc res strings rids id ((len : Int) - 2 * 4) rest hist with
        | (st2, rids2, hist2, .error .endParsing) =>
          have := st2
          have := rids2
          flushToExcept enc hist2
        | (_, _, _, .error e) => .error (.chunkError id e)
        | (st2, rids2, hist2, .ok (lim2, data2)) =>
          if lim2 = 0 then parseXmlLoop enc res fuel totalLen ((i + len) % 2 ^ 32) st2 rids2 data2 hist2
          else .error (.chunkNotFullyRead id)
    else flushToExcept enc hist

/-- The eight bytes reconstructed by `binary.Write` for the plaintext probe
of `ParseXml` (they equal the eight input bytes). -/
def plainTextProbe (id headerLen totalLen : Nat) : GoStr :=
  leBytes2 id ++ leBytes2 headerLen ++ leBytes4 totalLen

/-- `ParseXml` from parser.go: the top chunk header, the plaintext-manifest
probe, then the chunk loop ending in `encoder.Flush()`. -/
def ParseXml (data : List Nat) (enc : GoEncoder) (res : Option ResourceTableM) :
    Except ParseErr Unit :=
  match parseChunkHeader data with
  | .error e => .error e
  | .ok (id, headerLen, totalLen, rest) =>
    if id &&& 0xFF = 60 ∧
        (strXmlProbe.isPrefixOf (plainTextProbe id headerLen totalLen) = true ∨
          strManifProbe.isPrefixOf (plainTextProbe id headerLen totalLen) = true) then
      .error .plainTextManifest
    else
      parseXmlLoop enc res (rest.length + 1) ((totalLen + 2 ^ 32 - chunkHeaderSize) % 2 ^ 32) 0
        emptyStringTable [] rest []

/-- The duplicate-entry retry loop of `ApkParser.ParseXml` (apkparser.go):
`for file.Next() { ... }` followed by the plaintext check on the last
error.  `parse` is the per-sub-entry `ParseXml` call. -/
def ApkParserParseXmlLoop {α : Type} (parse : α → Except ParseErr Unit) :
    List α → Option ParseErr → Except ParseErr Unit
  | [], lastErr =>
    if lastErr = some ParseErr.plainTextManifest then .error .plainTextManifest
    else
      match lastErr with
      | some e => .error (.failedToParse e)
      | none => .error .failedToParseNone
  | e :: rest, lastErr =>
    have := lastErr
    match parse e with
    | .ok _ => .ok ()
    | .error err => ApkParserParseXmlLoop parse rest (some err)

/-- `ApkParser.ParseXml` given the opened file's sub-entries (the `nil`
file check is `fileNotFound`; `Open` on a fresh file cannot fail). -/
def ApkParserParseXml {α : Type} (parse : α → Except ParseErr Unit)
    (entries : Option (List α)) : Except ParseErr Unit :=
  match entries with
  | none => .error .fileNotFound
  | some l => ApkParserParseXmlLoop parse l none

/-- The inner index scan of Go `path.Clean`'s `..` backtracking: starting
from index `w`, walk down while the element is not a slash and the index
stays above `dotdot`; the result is the truncation length. -/
def pathCleanChop (buf : List Nat) (dotdot : Nat) : Nat → Nat
  | 0 => 0
  | w + 1 => if dotdot < w + 1 ∧ buf.getD (w + 1) 0 ≠ 47 then pathCleanChop buf dotdot w else w + 1

/-- The main loop of Go `path.Clean` over the input `p` (slash-separated,
byte-wise).  `out` is the output buffer, `dotdot` the backtracking floor;
fuel `p.length + 1` always suffices because `r` advances every iteration. -/
def pathCleanLoop (p : List Nat) (rooted : Bool) :
    Nat → Nat → List Nat → Nat → List Nat
  | 0, _, out, _ => out
  | fuel + 1, r, out, dotdot =>
    if r < p.length then
      let c := p.getD r 0
      if c = 47 then pathCleanLoop p rooted fuel (r + 1) out dotdot
      else if c = 46 ∧ (r + 1 = p.length ∨ p.getD (r + 1) 0 = 47) then
        pathCleanLoop p rooted fuel (r + 1) out dotdot
      else if c = 46 ∧ p.getD (r + 1) 0 = 46 ∧ (r + 2 = p.length ∨ p.getD (r + 2) 0 = 47) then
        if dotdot < out.length then
          pathCleanLoop p rooted fuel (r + 2)
            (List.take (pathCleanChop out dotdot (out.length - 1)) out) dotdot
        else if rooted = false then
          let out2 := (if 0 < out.length then out ++ [47] else out) ++ [46, 46]
          pathCleanLoop p rooted fuel (r + 2) out2 out2.length
        else pathCleanLoop p rooted fuel (r + 2) out dotdot
      else
        let out2 :=
          if (rooted = true ∧ out.length ≠ 1) ∨ (rooted = false ∧ out.length ≠ 0) then
            out ++ [47]
          else out
        let seg := (p.drop r).takeWhile (fun b => b != 47)
        pathCleanLoop p rooted fuel (r + seg.length) (out2 ++ seg) dotdot
    else out

/-- Go `path.Clean`, byte-wise over a name. -/
def goPathClean (p : List Nat) : List Nat :=
  if p = [] then [46]
  else
    let rooted : Bool := p.getD 0 0 = 47
    let res :=
      if rooted then pathCleanLoop p true (p.length + 1) 1 [47] 1
      else pathCleanLoop p false (p.length + 1) 0 [] 0
    if res.length = 0 then [46] else res

/-- One sub-entry of a `ZipReaderFile` (`zipReaderFileSubEntry`): the
absolute payload offset and the recorded compression method. -/
structure ZipSubEntry where
  offset : Nat
  method : Nat
deriving Repr, DecidableEq

/-- The accumulated fallback-scan state: the `ZipReader.File` map (cleaned
name to its sub-entry list, front entry tried first) and the discovery log
(the order sub-entries were found, mirroring `FilesOrdered`). -/
structure ZipScanState where
  fileMap : List (GoStr × List ZipSubEntry)
  ordered : List (GoStr × ZipSubEntry)
deriving Repr, DecidableEq

/-- Association-list lookup for the modelled Go maps. -/
def assocLookup {β : Type} : List (GoStr × β) → GoStr → Option β
  | [], _ => none
  | (k2, v) :: rest, k => if k2 = k then some v else assocLookup rest k

/-- Record one discovered local-header sub-entry under its cleaned name:
`zrf.entries = append([]zipReaderFileSubEntry{...}, zrf.entries...)`
prepends, so the latest discovery is tried first. -/
def zipRecordEntry (st : ZipScanState) (name : GoStr) (se : ZipSubEntry) : ZipScanState :=
  let newMap :=
    match assocLookup st.fileMap name with
    | some _ => st.fileMap.map (fun pr => if pr.1 = name then (pr.1, se :: pr.2) else pr)
    | none => st.fileMap ++ [(name, [se])]
  ⟨newMap, st.ordered ++ [(name, se)]⟩

/-- The local-file-header signature `50 4B 03 04`. -/
def zipSig : List Nat := [0x50, 0x4B, 0x03, 0x04]

/-- The byte-wise matcher of `findNextFileHeader`: `ok` counts signature
bytes matched so far and is reset to zero on mismatch without re-examining
the current byte (no backtracking), exactly as the Go loop does; `j` is the
absolute index of the byte being examined. -/
def zipScanSig : List Nat → Nat → Nat → Option Nat
  | [], _, _ => none
  | b :: rest, ok, j =>
    if b % 256 = zipSig.getD ok 0 then
      (if ok = 3 then some (j - 3) else zipScanSig rest (ok + 1) (j + 1))
    else zipScanSig rest 0 (j + 1)

/-- `findNextFileHeader`: scan for the signature from position `p`; `none`
models the `-1` (not found) result. -/
def findNextFileHeader (file : List Nat) (p : Nat) : Option Nat :=
  zipScanSig (file.drop p) 0 p

/-- `binary.Read` of a `uint16` at an absolute offset (after `f.Seek`). -/
def readAtU16 (file : List Nat) (pos : Nat) : Option Nat :=
  if pos + 2 ≤ file.length then some (leU16 ((file.drop pos).take 2)) else none

/-- `f.ReadAt(buf, pos)` of `k` bytes. -/
def readAtBytes (file : List Nat) (pos k : Nat) : Option GoStr :=
  if k = 0 then some []
  else if pos + k ≤ file.length then some (((file.drop pos).take k).map (fun b => b % 256))
  else none

/-- The fallback local-header scan loop of `OpenZipReader` (zipreader.go):
at each signature match read `method` at `+8`, `nameLen` at `+26`,
`extraLen` at `+28` and the name at `+30`; record the payload offset
`match + 30 + nameLen + extraLen` and resume scanning from `match + 4`.
The `Bool` result records whether the loop ended in a read error (entries
found so far are kept either way, as in the Go code). -/
def openZipFallbackLoop (file : List Nat) : Nat → Nat → ZipScanState → ZipScanState × Bool
  | 0, _, st => (st, true)
  | fuel + 1, p, st =>
    match findNextFileHeader file p with
    | none => (st, false)
    | some off =>
      match readAtU16 file (off + 8) with
      | none => (st, true)
      | some method =>
        match readAtU16 file (off + 26) with
        | none => (st, true)
        | some nameLen =>
          match readAtU16 file (off + 28) with
          | none => (st, true)
          | some extraLen =>
            match readAtBytes file (off + 30) nameLen with
            | none => (st, true)
            | some nameBytes =>
              openZipFallbackLoop file fuel (off + 4)
                (zipRecordEntry st (goPathClean nameBytes)
                  ⟨off + 30 + nameLen + extraLen, method⟩)

/-- The whole fallback path of `OpenZipReader` after a rewind to offset 0. -/
def openZipFallback (file : List Nat) : ZipScanState × Bool :=
  openZipFallbackLoop file (file.length + 1) 0 ⟨[], []⟩

/-- One central-directory entry as parsed by `archive/zip`
(`zip.File` fields used by `OpenZipReader`). -/
structure GoZipEntry where
  name : GoStr
  method : Nat
  compressedSize64 : Nat
  uncompressedSize64 : Nat
  isDir : Bool
deriving Repr, DecidableEq

/-- The compression-method normalization of the central-directory path of
`OpenZipReader`: methods other than Store (0) and Deflate (8) become
Deflate, except that the entries literally named `AndroidManifest.xml` or
`resources.arsc` become Store with `CompressedSize64 = UncompressedSize64`. -/
def openZipNormalizeEntry (e : GoZipEntry) : GoZipEntry :=
  if e.method ≠ 0 ∧ e.method ≠ 8 then
    if e.name = strAndroidManifestXml ∨ e.name = strResourcesArsc then
      { e with method := 0, compressedSize64 := e.uncompressedSize64 }
    else { e with method := 8 }
  else e

/-- The central-directory indexing loop of `OpenZipReader`: normalize each
entry, clean its name, and keep only the first entry per cleaned name. -/
def openZipCentralIndex : List GoZipEntry → List (GoStr × GoZipEntry) → List (GoStr × GoZipEntry)
  | [], acc => acc
  | zf :: rest, acc =>
    let zf2 := openZipNormalizeEntry zf
    let cl := goPathClean zf2.name
    let acc2 :=
      match assocLookup acc cl with
      | some _ => acc
      | none => acc ++ [(cl, zf2)]
    openZipCentralIndex rest acc2

/-- `OpenZipReader`'s central-directory success path, as the indexed map. -/
def openZipCentral (entries : List GoZipEntry) : List (GoStr × GoZipEntry) :=
  openZipCentralIndex entries []

/-- A trivial collecting encoder: every token is accepted, `Flush` never
fails (the test sink). -/
def collectEncoder : GoEncoder := ⟨fun _ _ => none, fun _ => none⟩

/-- An encoder whose `EncodeToken` immediately returns the `ErrEndParsing`
sentinel, terminating the parse early. -/
def endParsingEncoder : GoEncoder := ⟨fun _ _ => some .endParsing, fun _ => none⟩

/-- A well-formed sample AXML document: a UTF-8 string pool with strings
`"a"` and `"n"`, one tag start for element `a` carrying a single
Reference-typed attribute named `n` with data `0x7F000001`, and the
matching tag end. -/
def sampleAxml : List Nat :=
  [3, 0] ++ [8, 0] ++ [132, 0, 0, 0] ++
  ([1, 0] ++ [28, 0] ++ [44, 0, 0, 0] ++
    ([2, 0, 0, 0] ++ [0, 0, 0, 0] ++ [0, 1, 0, 0] ++ [36, 0, 0, 0] ++ [0, 0, 0, 0] ++
      [0, 0, 0, 0] ++ [4, 0, 0, 0] ++ [1, 1, 97, 0] ++ [1, 1, 110, 0])) ++
  ([2, 1] ++ [16, 0] ++ [56, 0, 0, 0] ++
    ([0, 0, 0, 0] ++ [255, 255, 255, 255] ++ [255, 255, 255, 255] ++ [0, 0, 0, 0] ++
      [20, 0] ++ [20, 0] ++ [1, 0] ++ [0, 0, 0, 0, 0, 0] ++
      ([255, 255, 255, 255] ++ [1, 0, 0, 0] ++ [255, 255, 255, 255] ++ [8, 0] ++ [0] ++ [1] ++
        [1, 0, 0, 127]))) ++
  ([3, 1] ++ [16, 0] ++ [24, 0, 0, 0] ++
    ([0, 0, 0, 0] ++ [255, 255, 255, 255] ++ [255, 255, 255, 255] ++ [0, 0, 0, 0]))

/-- The first bytes of a plain-text manifest (`"<?xml vers"`). -/
def samplePlainText : List Nat := [60, 63, 120, 109, 108, 32, 118, 101, 114, 115]

/-- A UTF-8 string pool holding the single string `"package"`. -/
def samplePackagePool : StringTable :=
  ⟨true, [0, 0, 0, 0], [7, 7, 112, 97, 99, 107, 97, 103, 101, 0]⟩

/-- A string-table chunk body declaring exactly 2,097,152 strings (with no
style data and valid flags). -/
def c8input : List Nat := [0, 0, 32, 0] ++ List.replicate 16 0

/-- A string-table chunk body declaring one string but a zero
`stringsDataOffset`, making the computed remainder `-32`. -/
def c9input : List Nat := [1, 0, 0, 0] ++ List.replicate 16 0

/-- A string-table chunk body declaring one UTF-8 string whose stored offset
(16) points past the end of the (empty) string data blob. -/
def c5input : List Nat :=
  [1, 0, 0, 0] ++ [0, 0, 0, 0] ++ [0, 1, 0, 0] ++ [32, 0, 0, 0] ++ [0, 0, 0, 0] ++ [16, 0, 0, 0]

/-- A file whose local-header signature occurrence (at offset 1) is preceded
by an extra `0x50` byte, with ample room for the header fields. -/
def c6file : List Nat := [0x50, 0x50, 0x4B, 0x03, 0x04] ++ List.replicate 40 0

/-- A file with one well-formed local header at offset 0: method 9, a
one-byte name `"a"`, no extra field, payload at offset 31. -/
def c6okFile : List Nat :=
  [0x50, 0x4B, 0x03, 0x04] ++ [7, 7, 7, 7] ++ [9, 0] ++ List.replicate 16 0 ++ [1, 0] ++
    [0, 0] ++ [97] ++ [5, 6]

/-- A resource table whose every lookup succeeds and resolves to the empty
string (e.g. a `Null` terminal value, which §4.3 renders as empty). -/
def emptyResolvingTable : ResourceTableM :=
  ⟨fun _ => .ok ⟨.ok []⟩, fun _ => .ok ⟨.ok []⟩⟩

/-- The parsed sample string pool of `sampleAxml` (strings `"a"`, `"n"`). -/
def sampleStrTable : StringTable := ⟨true, [0, 0, 0, 0, 4, 0, 0, 0], [1, 1, 97, 0, 1, 1, 110, 0]⟩

/-- The tag-start chunk of `sampleAxml`, as a standalone chunk stream. -/
def sampleTagChunk : List Nat :=
  [2, 1] ++ [16, 0] ++ [56, 0, 0, 0] ++ [0, 0, 0, 0] ++ [255, 255, 255, 255] ++
    [255, 255, 255, 255] ++ [0, 0, 0, 0] ++ [20, 0] ++ [20, 0] ++ [1, 0] ++ [0, 0, 0, 0, 0, 0] ++
    [255, 255, 255, 255] ++ [1, 0, 0, 0] ++ [255, 255, 255, 255] ++ [8, 0] ++ [0] ++ [1] ++
    [1, 0, 0, 127]

/-- The plaintext test of the claim: the low byte of the first little-endian
word equals `<` and the first six bytes spell `<?xml ` or `<manif`. -/
def plainTextCondition (data : List Nat) : Prop :=
  data.getD 0 0 % 256 = 60 ∧
    ((data.take 6).map (fun b => b % 256) = strXmlProbe ∨
      (data.take 6).map (fun b => b % 256) = strManifProbe)

instance (data : List Nat) : Decidable (plainTextCondition data) := by
  unfold plainTextCondition; infer_instance

/-- A string-table chunk body with two declared strings but `stringsDataOffset`
32, giving remainder `-4`: the obfuscator-style count lie that the parser
recovers from by dropping one string. -/
def c9okInput : List Nat :=
  [2, 0, 0, 0] ++ [0, 0, 0, 0] ++ [0, 1, 0, 0] ++ [32, 0, 0, 0] ++ [0, 0, 0, 0] ++
    [0, 0, 0, 0] ++ [1, 1, 97, 0]

theorem readLim_ok {k : Nat} {lim : Int} {data : List Nat} (h1 : (k : Int) ≤ lim)
    (h2 : k ≤ data.length) :
    readLim k lim data = .ok (data.take k, lim - k, data.drop k) := by
  unfold readLim
  rw [if_pos ⟨h1, h2⟩]

theorem readLim_inv_ok {k : Nat} {lim : Int} {data : List Nat}
    {t : List Nat × Int × List Nat} (h : readLim k lim data = .ok t) :
    t = (data.take k, lim - k, data.drop k) ∧ (k : Int) ≤ lim ∧ k ≤ data.length := by
  unfold readLim at h
  split at h
  · cases h
    next hc => exact ⟨rfl, hc⟩
  · cases h

theorem readLim_inv_error {k : Nat} {lim : Int} {data : List Nat} {e : ParseErr}
    (h : readLim k lim data = .error e) : e = .eof := by
  unfold readLim at h
  split at h
  · cases h
  · cases h
    rfl

/-- C7 — counterexample: an entry named `./AndroidManifest.xml` (whose
cleaned name is `AndroidManifest.xml`) with unknown method 12 is rewritten
to Deflate (8) with its compressed size untouched, not to Store as the
claim states, because the code switches on the raw name before cleaning. -/
theorem C7_counterexample :
    goPathClean ([46, 47] ++ strAndroidManifestXml) = strAndroidManifestXml ∧
    (openZipNormalizeEntry ⟨[46, 47] ++ strAndroidManifestXml, 12, 5, 7, false⟩).method = 8 ∧
    (openZipNormalizeEntry ⟨[46, 47] ++ strAndroidManifestXml, 12, 5, 7, false⟩).compressedSize64
      = 5 := by
  decide

/-- C7 (amended): entries already using Store (0) or Deflate (8) are left
unchanged; an entry with any other method is rewritten to Store with
compressed size set to the uncompressed size when its RAW recorded name is
exactly `AndroidManifest.xml` or `resources.arsc`, and to Deflate
otherwise. -/
theorem C7_methodNormalization :
    (∀ e : GoZipEntry, e.method = 0 ∨ e.method = 8 → openZipNormalizeEntry e = e) ∧
    (∀ e : GoZipEntry, e.method ≠ 0 → e.method ≠ 8 →
      e.name = strAndroidManifestXml ∨ e.name = strResourcesArsc →
      openZipNormalizeEntry e = { e with method := 0, compressedSize64 := e.uncompressedSize64 }) ∧
    (∀ e : GoZipEntry, e.method ≠ 0 → e.method ≠ 8 →
      e.name ≠ strAndroidManifestXml → e.name ≠ strResourcesArsc →
      openZipNormalizeEntry e = { e with method := 8 }) := by
  refine ⟨fun e he => ?_, fun e h0 h8 hn => ?_, fun e h0 h8 hn1 hn2 => ?_⟩
  · unfold openZipNormalizeEntry
    rw [if_neg]
    tauto
  · unfold openZipNormalizeEntry
    rw [if_pos ⟨h0, h8⟩, if_pos hn]
  · unfold openZipNormalizeEntry
    rw [if_pos ⟨h0, h8⟩, if_neg]
    tauto

/-- C7 — witness: a raw-named `AndroidManifest.xml` entry with method 12
becomes Store with compressed = uncompressed size. -/
theorem C7_witness :
    openZipNormalizeEntry ⟨strAndroidManifestXml, 12, 5, 7, false⟩ =
      ⟨strAndroidManifestXml, 0, 7, 7, false⟩ := by
  have h := C7_methodNormalization.2.1 ⟨strAndroidManifestXml, 12, 5, 7, false⟩
    (by decide) (by decide) (Or.inl rfl)
  exact h

theorem stringTableAdjustCnt_inv_error {r : Int} {c : Nat} {e : ParseErr}
    (h : stringTableAdjustCnt r c = .error e) :
    e = .wrongStringOffset r ∧ r < 0 ∧ ¬(r % 4 = 0 ∧ (-r).toNat / 4 < c) := by
  unfold stringTableAdjustCnt at h
  split at h
  next hr =>
    split at h
    next => cases h
    next hc => cases h; exact ⟨rfl, hr, hc⟩
  next => cases h

theorem stringTableAdjustCnt_inv_ok {r : Int} {c : Nat} {c2 : Nat}
    (h : stringTableAdjustCnt r c = .ok c2) :
    (r < 0 ∧ r % 4 = 0 ∧ (-r).toNat / 4 < c ∧ c2 = c - (-r).toNat / 4) ∨ (0 ≤ r ∧ c2 = c) := by
  unfold stringTableAdjustCnt at h
  split at h
  next hr =>
    split at h
    next hc => cases h; exact Or.inl ⟨hr, hc.1, hc.2, rfl⟩
    next => cases h
  next hr => cases h; exact Or.inr ⟨by omega, rfl⟩

set_option maxHeartbeats 1000000 in
theorem parseStringTable_error_shape {lim : Int} {data : List Nat} {e : ParseErr}
    (h : parseStringTable lim data = .error e) :
    e = .eof ∨ (∃ f, e = .unknownStringFlag f) ∨
      (e = .tooManyStrings (leU32 (data.take 4)) ∧ 2 * 1024 * 1024 ≤ leU32 (data.take 4)) ∨
      (e = .wrongStringOffset
          (stringTableRemainder (leU32 ((data.drop 12).take 4)) (leU32 (data.take 4))) ∧
        stringTableRemainder (leU32 ((data.drop 12).take 4)) (leU32 (data.take 4)) < 0 ∧
        ¬(stringTableRemainder (leU32 ((data.drop 12).take 4)) (leU32 (data.take 4)) % 4 = 0 ∧
          (-stringTableRemainder (leU32 ((data.drop 12).take 4)) (leU32 (data.take 4))).toNat / 4 <
            leU32 (data.take 4))) := by
  unfold parseStringTable at h
  split at h
  next heq1 => cases h; exact Or.inl (readLim_inv_error heq1)
  next b1 lim1 data1 heq1 =>
    obtain ⟨ht1, -, -⟩ := readLim_inv_ok heq1
    injection ht1 with hb1 ht1; injection ht1 with hlim1 hdata1
    subst hb1; subst hlim1; subst hdata1
    split at h
    next heq2 => cases h; exact Or.inl (readLim_inv_error heq2)
    next b2 lim2 data2 heq2 =>
      obtain ⟨ht2, -, -⟩ := readLim_inv_ok heq2
      injection ht2 with hb2 ht2; injection ht2 with hlim2 hdata2
      subst hb2; subst hlim2; subst hdata2
      split at h
      next heq3 => cases h; exact Or.inl (readLim_inv_error heq3)
      next b3 lim3 data3 heq3 =>
        obtain ⟨ht3, -, -⟩ := readLim_inv_ok heq3
        injection ht3 with hb3 ht3; injection ht3 with hlim3 hdata3
        subst hb3; subst hlim3; subst hdata3
        split at h
        next => cases h; exact Or.inr (Or.inl ⟨_, rfl⟩)
        next =>
          split at h
          next heq4 => cases h; exact Or.inl (readLim_inv_error heq4)
          next b4 lim4 data4 heq4 =>
            obtain ⟨ht4, -, -⟩ := readLim_inv_ok heq4
            injection ht4 with hb4 ht4; injection ht4 with hlim4 hdata4
            subst hb4; subst hlim4; subst hdata4
            split at h
            next heq5 => cases h; exact Or.inl (readLim_inv_error heq5)
            next b5 lim5 data5 heq5 =>
              obtain ⟨ht5, -, -⟩ := readLim_inv_ok heq5
              injection ht5 with hb5 ht5; injection ht5 with hlim5 hdata5
              subst hb5; subst hlim5; subst hdata5
              split at h
              next hcnt => cases h; exact Or.inr (Or.inr (Or.inl ⟨rfl, hcnt⟩))
              next hcnt =>
                split at h
                next e6 heq6 =>
                  cases h
                  obtain ⟨he, hr, hc⟩ := stringTableAdjustCnt_inv_error heq6
                  subst he
                  refine Or.inr (Or.inr (Or.inr ⟨?_, ?_, ?_⟩))
                  · simp only [List.drop_drop]
                  · simpa only [List.drop_drop] using hr
                  · simpa only [List.drop_drop] using hc
                next cnt6 heq6 =>
                  split at h
                  next heq7 => cases h; exact Or.inl (readLim_inv_error heq7)
                  next b7 lim7 data7 heq7 =>
                    split at h
                    next e8 heq8 =>
                      cases h
                      split at heq8
                      next => exact Or.inl (readLim_inv_error heq8)
                      next => cases heq8
                    next t8 heq8 =>
                      split at h
                      next heq9 => cases h; exact Or.inl (readLim_inv_error heq9)
                      next => cases h

set_option maxHeartbeats 1000000 in
theorem parseStringTable_ok_offsets {lim : Int} {data : List Nat} {st : StringTable}
    {l2 : Int} {d2 : List Nat} (h : parseStringTable lim data = .ok (st, l2, d2)) :
    ∃ cnt2,
      stringTableAdjustCnt
          (stringTableRemainder (leU32 ((data.drop 12).take 4)) (leU32 (data.take 4)))
          (leU32 (data.take 4)) = .ok cnt2 ∧
        st.stringOffsets.length = 4 * cnt2 := by
  unfold parseStringTable at h
  split at h
  next => cases h
  next b1 lim1 data1 heq1 =>
    obtain ⟨ht1, -, -⟩ := readLim_inv_ok heq1
    injection ht1 with hb1 ht1; injection ht1 with hlim1 hdata1
    subst hb1; subst hlim1; subst hdata1
    split at h
    next => cases h
    next b2 lim2 data2 heq2 =>
      obtain ⟨ht2, -, -⟩ := readLim_inv_ok heq2
      injection ht2 with hb2 ht2; injection ht2 with hlim2 hdata2
      subst hb2; subst hlim2; subst hdata2
      split at h
      next => cases h
      next b3 lim3 data3 heq3 =>
        obtain ⟨ht3, -, -⟩ := readLim_inv_ok heq3
        injection ht3 with hb3 ht3; injection ht3 with hlim3 hdata3
        subst hb3; subst hlim3; subst hdata3
        split at h
        next => cases h
        next =>
          split at h
          next => cases h
          next b4 lim4 data4 heq4 =>
            obtain ⟨ht4, -, -⟩ := readLim_inv_ok heq4
            injection ht4 with hb4 ht4; injection ht4 with hlim4 hdata4
            subst hb4; subst hlim4; subst hdata4
            split at h
            next => cases h
            next b5 lim5 data5 heq5 =>
              obtain ⟨ht5, -, -⟩ := readLim_inv_ok heq5
              injection ht5 with hb5 ht5; injection ht5 with hlim5 hdata5
              subst hb5; subst hlim5; subst hdata5
              split at h
              next => cases h
              next =>
                split at h
                next => cases h
                next cnt6 heq6 =>
                  split at h
                  next => cases h
                  next b7 lim7 data7 heq7 =>
                    obtain ⟨ht7, -, hlen7⟩ := readLim_inv_ok heq7
                    injection ht7 with hb7 ht7; injection ht7 with hlim7 hdata7
                    subst hb7; subst hlim7; subst hdata7
                    split at h
                    next => cases h
                    next t8 heq8 =>
                      split at h
                      next => cases h
                      next b9 lim9 data9 heq9 =>
                        cases h
                        refine ⟨cnt6, ?_, ?_⟩
                        · simpa only [List.drop_drop] using heq6
                        · simp only [List.length_drop] at hlen7
                          simp [List.length_take]
                          omega

set_option maxHeartbeats 1000000 in
theorem parseStringTable_forward {lim : Int} {data : List Nat}
    (h1 : 20 ≤ lim) (h2 : 20 ≤ data.length)
    (hflags : stringTableFlagsRemaining (leU32 ((data.drop 8).take 4)) = 0) :
    parseStringTable lim data =
      (if 2 * 1024 * 1024 ≤ leU32 (data.take 4) then
        .error (.tooManyStrings (leU32 (data.take 4)))
      else
        match stringTableAdjustCnt
            (stringTableRemainder (leU32 ((data.drop 12).take 4)) (leU32 (data.take 4)))
            (leU32 (data.take 4)) with
        | .error e => .error e
        | .ok cnt =>
          match readLim (4 * cnt) (lim - 4 - 4 - 4 - 4 - 4) (data.drop 20) with
          | .error e => .error e
          | .ok (offs, lim6, data6) =>
            match (if 0 < stringTableRemainder (leU32 ((data.drop 12).take 4))
                (leU32 (data.take 4)) then
                  readLim (stringTableRemainder (leU32 ((data.drop 12).take 4))
                    (leU32 (data.take 4))).toNat lim6 data6
                else Except.ok ([], lim6, data6)) with
            | .error e => .error e
            | .ok (_, lim7, data7) =>
              match readLim lim7.toNat lim7 data7 with
              | .error e => .error e
              | .ok (tblData, lim8, data8) =>
                .ok (⟨0 < leU32 ((data.drop 8).take 4) &&& 0x100, offs, tblData⟩, lim8, data8)) := by
  have e1 : readLim 4 lim data = .ok (data.take 4, lim - 4, data.drop 4) := by
    simpa using @readLim_ok 4 lim data (by omega) (by omega)
  have e2 : readLim 4 (lim - 4) (data.drop 4) =
      .ok ((data.drop 4).take 4, lim - 4 - 4, data.drop 8) := by
    have := @readLim_ok 4 (lim - 4) (data.drop 4) (by omega)
      (by simp only [List.length_drop]; omega)
    simpa [List.drop_drop] using this
  have e3 : readLim 4 (lim - 4 - 4) (data.drop 8) =
      .ok ((data.drop 8).take 4, lim - 4 - 4 - 4, data.drop 12) := by
    have := @readLim_ok 4 (lim - 4 - 4) (data.drop 8) (by omega)
      (by simp only [List.length_drop]; omega)
    simpa [List.drop_drop] using this
  have e4 : readLim 4 (lim - 4 - 4 - 4) (data.drop 12) =
      .ok ((data.drop 12).take 4, lim - 4 - 4 - 4 - 4, data.drop 16) := by
    have := @readLim_ok 4 (lim - 4 - 4 - 4) (data.drop 12) (by omega)
      (by simp only [List.length_drop]; omega)
    simpa [List.drop_drop] using this
  have e5 : readLim 4 (lim - 4 - 4 - 4 - 4) (data.drop 16) =
      .ok ((data.drop 16).take 4, lim - 4 - 4 - 4 - 4 - 4, data.drop 20) := by
    have := @readLim_ok 4 (lim - 4 - 4 - 4 - 4) (data.drop 16) (by omega)
      (by simp only [List.length_drop]; omega)
    simpa [List.drop_drop] using this
  unfold parseStringTable
  rw [e1]
  simp only [e2, e3, e4, e5, hflags, lt_self_iff_false, if_false]

/-- C8 — counterexample: a chunk declaring exactly 2,097,152 strings (not
larger than 2,097,152) is nevertheless rejected with the too-many-strings
error, because the code tests `stringCnt >= 2*1024*1024`. -/
theorem C8_counterexample :
    leU32 (c8input.take 4) = 2097152 ∧ ¬2097152 < 2097152 ∧
      parseStringTable 20 c8input = .error (.tooManyStrings 2097152) := by
  refine ⟨by decide, by decide, by rfl⟩

/-- C8 (amended): a declared string count of at least 2,097,152 (not just
strictly larger) fails with the too-many-strings error, and the error is
raised exactly for the declared count, never for a smaller one. -/
theorem C8_stringCountLimit :
    (∀ (lim : Int) (data : List Nat) (c : Nat),
        parseStringTable lim data = .error (.tooManyStrings c) →
          c = leU32 (data.take 4) ∧ 2 * 1024 * 1024 ≤ c) ∧
    (∀ (lim : Int) (data : List Nat), 20 ≤ lim → 20 ≤ data.length →
        stringTableFlagsRemaining (leU32 ((data.drop 8).take 4)) = 0 →
        2 * 1024 * 1024 ≤ leU32 (data.take 4) →
        parseStringTable lim data = .error (.tooManyStrings (leU32 (data.take 4)))) := by
  constructor
  · intro lim data c h
    rcases parseStringTable_error_shape h with h1 | ⟨f, h1⟩ | ⟨h1, h2⟩ | ⟨h1, -, -⟩
    · cases h1
    · cases h1
    · injection h1 with h1
      exact ⟨h1, h1 ▸ h2⟩
    · cases h1
  · intro lim data h1 h2 hflags hcnt
    rw [parseStringTable_forward h1 h2 hflags, if_pos hcnt]

/-- C8 — witness: the limit theorem applied to the concrete 2,097,152-string
chunk body. -/
theorem C8_witness :
    parseStringTable 20 c8input = .error (.tooManyStrings (leU32 (c8input.take 4))) :=
  C8_stringCountLimit.2 20 c8input (by decide) (by decide) (by decide) (by decide)

/-- C9 — counterexample: a chunk with `stringCount = 1` and
`stringsDataOffset = 0` has remainder `-32`, which divides evenly by 4, yet
parsing fails with the wrong-string-offset error (the overflow count 8 is
not smaller than the declared count 1), contradicting the claim that an
evenly-divisible negative remainder always continues. -/
theorem C9_counterexample :
    stringTableRemainder (leU32 ((c9input.drop 12).take 4)) (leU32 (c9input.take 4)) = -32 ∧
      (-32 : Int) % 4 = 0 ∧
      parseStringTable 20 c9input = .error (.wrongStringOffset (-32)) := by
  refine ⟨by decide, by decide, by rfl⟩

/-- C9 (amended): when the remainder `stringsDataOffset - 28 - 4*stringCount`
is negative, parsing continues with `stringCount` reduced by the overflow
count exactly when the remainder divides evenly by 4 AND the overflow count
is smaller than `stringCount`; otherwise it fails with the
wrong-string-offset error.  A non-negative remainder never produces that
error. -/
theorem C9_remainderCheck :
    (∀ (lim : Int) (data : List Nat) (r : Int),
        parseStringTable lim data = .error (.wrongStringOffset r) →
          r = stringTableRemainder (leU32 ((data.drop 12).take 4)) (leU32 (data.take 4)) ∧
            r < 0 ∧ ¬(r % 4 = 0 ∧ (-r).toNat / 4 < leU32 (data.take 4))) ∧
    (∀ (lim : Int) (data : List Nat) (st : StringTable) (l2 : Int) (d2 : List Nat),
        parseStringTable lim data = .ok (st, l2, d2) →
        stringTableRemainder (leU32 ((data.drop 12).take 4)) (leU32 (data.take 4)) < 0 →
        st.stringOffsets.length =
          4 * (leU32 (data.take 4) -
            (-stringTableRemainder (leU32 ((data.drop 12).take 4))
              (leU32 (data.take 4))).toNat / 4)) ∧
    (∀ (lim : Int) (data : List Nat), 20 ≤ lim → 20 ≤ data.length →
        stringTableFlagsRemaining (leU32 ((data.drop 8).take 4)) = 0 →
        leU32 (data.take 4) < 2 * 1024 * 1024 →
        stringTableRemainder (leU32 ((data.drop 12).take 4)) (leU32 (data.take 4)) < 0 →
        ¬(stringTableRemainder (leU32 ((data.drop 12).take 4)) (leU32 (data.take 4)) % 4 = 0 ∧
            (-stringTableRemainder (leU32 ((data.drop 12).take 4))
              (leU32 (data.take 4))).toNat / 4 < leU32 (data.take 4)) →
        parseStringTable lim data =
          .error (.wrongStringOffset
            (stringTableRemainder (leU32 ((data.drop 12).take 4)) (leU32 (data.take 4))))) := by
  refine ⟨?_, ?_, ?_⟩
  · intro lim data r h
    rcases parseStringTable_error_shape h with h1 | ⟨f, h1⟩ | ⟨h1, -⟩ | ⟨h1, h2, h3⟩
    · cases h1
    · cases h1
    · cases h1
    · injection h1 with h1
      subst h1
      exact ⟨rfl, h2, h3⟩
  · intro lim data st l2 d2 h hrem
    obtain ⟨cnt2, hadj, hlen⟩ := parseStringTable_ok_offsets h
    rcases stringTableAdjustCnt_inv_ok hadj with ⟨-, -, -, hc⟩ | ⟨hge, -⟩
    · rw [hlen, hc]
    · omega
  · intro lim data h1 h2 hflags hcnt hrem hc
    rw [parseStringTable_forward h1 h2 hflags, if_neg (by omega)]
    have hadj : stringTableAdjustCnt
        (stringTableRemainder (leU32 ((data.drop 12).take 4)) (leU32 (data.take 4)))
        (leU32 (data.take 4)) =
        .error (.wrongStringOffset
          (stringTableRemainder (leU32 ((data.drop 12).take 4)) (leU32 (data.take 4)))) := by
      unfold stringTableAdjustCnt
      rw [if_pos hrem, if_neg hc]
    rw [hadj]

/-- C9 — witness: on a chunk with remainder `-4` (divisible by 4, overflow
count 1 below the declared count 2), parsing succeeds and the parsed table
keeps `4 * (2 - 1)` offset bytes. -/
theorem C9_witness :
    (⟨true, [0, 0, 0, 0], [1, 1, 97, 0]⟩ : StringTable).stringOffsets.length = 4 * (2 - 1) :=
  C9_remainderCheck.2.1 28 c9okInput ⟨true, [0, 0, 0, 0], [1, 1, 97, 0]⟩ 0 []
    (by rfl) (by decide)

set_option maxHeartbeats 1000000 in
theorem goDecodeRune_snd_pos (l : List Nat) : 1 ≤ (goDecodeRune l).2 := by
  rcases l with _ | ⟨b0, _ | ⟨b1, _ | ⟨b2, _ | ⟨b3, rest⟩⟩⟩⟩ <;>
    simp only [goDecodeRune] <;> (repeat' split) <;> simp

set_option maxHeartbeats 1000000 in
theorem goDecodeRune_fst_valid (l : List Nat) : validScalar (goDecodeRune l).1 := by
  rcases l with _ | ⟨b0, _ | ⟨b1, _ | ⟨b2, _ | ⟨b3, rest⟩⟩⟩⟩ <;>
    simp only [goDecodeRune] <;> (repeat' split) <;>
    (unfold validScalar; simp) <;> omega

set_option maxHeartbeats 1600000 in
theorem goDecodeRune_encode {r : Nat} (h : validScalar r) (tail : List Nat) :
    goDecodeRune (goEncodeRune r ++ tail) = (r, (goEncodeRune r).length) := by
  obtain ⟨h1, h2⟩ := h
  unfold goEncodeRune
  have hcl : (if 0x10FFFF < r ∨ (0xD800 ≤ r ∧ r ≤ 0xDFFF) then 0xFFFD else r) = r :=
    if_neg (by omega)
  rw [hcl]
  by_cases c1 : r < 0x80
  · rw [if_pos c1]
    simp only [List.cons_append, List.nil_append, List.length_cons, List.length_nil]
    simp only [goDecodeRune]
    rw [Nat.mod_eq_of_lt (show r < 256 by omega), if_pos c1]
  · rw [if_neg c1]
    by_cases c2 : r < 0x800
    · rw [if_pos c2]
      simp only [List.cons_append, List.nil_append, List.length_cons, List.length_nil]
      simp only [goDecodeRune]
      rw [Nat.mod_eq_of_lt (show 0xC0 + r / 64 < 256 by omega)]
      rw [if_neg (by omega), if_neg (by omega), if_pos (by omega)]
      rw [Nat.mod_eq_of_lt (show 0x80 + r % 64 < 256 by omega)]
      rw [if_pos (by omega)]
      simp only [Prod.mk.injEq]
      exact ⟨by omega, by trivial⟩
    · rw [if_neg c2]
      by_cases c3 : r < 0x10000
      · rw [if_pos c3]
        simp only [List.cons_append, List.nil_append, List.length_cons, List.length_nil]
        simp only [goDecodeRune]
        rw [Nat.mod_eq_of_lt (show 0xE0 + r / 4096 < 256 by omega)]
        rw [if_neg (by omega), if_neg (by omega), if_neg (by omega), if_pos (by omega)]
        rw [Nat.mod_eq_of_lt (show 0x80 + r / 64 % 64 < 256 by omega)]
        rw [Nat.mod_eq_of_lt (show 0x80 + r % 64 < 256 by omega)]
        by_cases cE0 : r < 0x1000
        · rw [show 0xE0 + r / 4096 = 0xE0 from by omega]
          rw [if_pos (show (0xE0 : Nat) = 0xE0 from rfl),
            if_neg (show ¬(0xE0 : Nat) = 0xED from by decide)]
          rw [if_pos (by omega)]
          simp only [Prod.mk.injEq]
          exact ⟨by omega, by trivial⟩
        · by_cases cED : 0xD000 ≤ r ∧ r < 0xE000
          · rw [show 0xE0 + r / 4096 = 0xED from by omega]
            rw [if_neg (show ¬(0xED : Nat) = 0xE0 from by decide),
              if_pos (show (0xED : Nat) = 0xED from rfl)]
            rw [if_pos (by omega)]
            simp only [Prod.mk.injEq]
            exact ⟨by omega, by trivial⟩
          · rw [if_neg (show ¬0xE0 + r / 4096 = 0xE0 from by omega),
              if_neg (show ¬0xE0 + r / 4096 = 0xED from by omega)]
            rw [if_pos (by omega)]
            simp only [Prod.mk.injEq]
            exact ⟨by omega, by trivial⟩
      · rw [if_neg c3]
        simp only [List.cons_append, List.nil_append, List.length_cons, List.length_nil]
        simp only [goDecodeRune]
        rw [Nat.mod_eq_of_lt (show 0xF0 + r / 262144 < 256 by omega)]
        rw [if_neg (by omega), if_neg (by omega), if_neg (by omega), if_neg (by omega),
          if_pos (by omega)]
        rw [Nat.mod_eq_of_lt (show 0x80 + r / 4096 % 64 < 256 by omega)]
        rw [Nat.mod_eq_of_lt (show 0x80 + r / 64 % 64 < 256 by omega)]
        rw [Nat.mod_eq_of_lt (show 0x80 + r % 64 < 256 by omega)]
        by_cases cF0 : r < 0x40000
        · rw [show 0xF0 + r / 262144 = 0xF0 from by omega]
          rw [if_pos (show (0xF0 : Nat) = 0xF0 from rfl),
            if_neg (show ¬(0xF0 : Nat) = 0xF4 from by decide)]
          rw [if_pos (by omega)]
          simp only [Prod.mk.injEq]
          exact ⟨by omega, by trivial⟩
        · by_cases cF4 : 0x100000 ≤ r
          · rw [show 0xF0 + r / 262144 = 0xF4 from by omega]
            rw [if_neg (show ¬(0xF4 : Nat) = 0xF0 from by decide),
              if_pos (show (0xF4 : Nat) = 0xF4 from rfl)]
            rw [if_pos (by omega)]
            simp only [Prod.mk.injEq]
            exact ⟨by omega, by trivial⟩
          · rw [if_neg (show ¬0xF0 + r / 262144 = 0xF0 from by omega),
              if_neg (show ¬0xF0 + r / 262144 = 0xF4 from by omega)]
            rw [if_pos (by omega)]
            simp only [Prod.mk.injEq]
            exact ⟨by omega, by trivial⟩

theorem goDecodeRunesAux_congr :
    ∀ (f1 f2 : Nat) (l : List Nat), l.length ≤ f1 → l.length ≤ f2 →
      goDecodeRunesAux f1 l = goDecodeRunesAux f2 l := by
  intro f1
  induction f1 with
  | zero =>
    intro f2 l h1 _
    have : l = [] := by
      cases l
      · rfl
      · simp at h1
    subst this
    cases f2 <;> rfl
  | succ f ih =>
    intro f2 l h1 h2
    cases l with
    | nil => cases f2 <;> rfl
    | cons b rest =>
      cases f2 with
      | zero => simp at h2
      | succ f2 =>
        simp only [goDecodeRunesAux]
        congr 1
        apply ih
        · have := goDecodeRune_snd_pos (b :: rest)
          simp only [List.length_drop, List.length_cons] at *
          omega
        · have := goDecodeRune_snd_pos (b :: rest)
          simp only [List.length_drop, List.length_cons] at *
          omega

theorem goValidUtf8Aux_congr :
    ∀ (f1 f2 : Nat) (l : List Nat), l.length ≤ f1 → l.length ≤ f2 →
      goValidUtf8Aux f1 l = goValidUtf8Aux f2 l := by
  intro f1
  induction f1 with
  | zero =>
    intro f2 l h1 _
    have : l = [] := by
      cases l
      · rfl
      · simp at h1
    subst this
    cases f2 <;> rfl
  | succ f ih =>
    intro f2 l h1 h2
    cases l with
    | nil => cases f2 <;> rfl
    | cons b rest =>
      cases f2 with
      | zero => simp at h2
      | succ f2 =>
        simp only [goValidUtf8Aux]
        congr 1
        apply ih
        · have := goDecodeRune_snd_pos (b :: rest)
          simp only [List.length_drop, List.length_cons] at *
          omega
        · have := goDecodeRune_snd_pos (b :: rest)
          simp only [List.length_drop, List.length_cons] at *
          omega

theorem goEncodeRune_length_pos (r : Nat) : 1 ≤ (goEncodeRune r).length := by
  unfold goEncodeRune
  dsimp only
  by_cases h : 0x10FFFF < r ∨ (0xD800 ≤ r ∧ r ≤ 0xDFFF)
  · rw [if_pos h]
    decide
  · rw [if_neg h]
    repeat' split
    all_goals simp

theorem goDecodeRunesAux_step {l : List Nat} (hne : l ≠ []) (f : Nat) :
    goDecodeRunesAux (f + 1) l =
      (goDecodeRune l).1 :: goDecodeRunesAux f (l.drop (goDecodeRune l).2) := by
  cases l with
  | nil => cases hne rfl
  | cons b rest => rfl

theorem goValidUtf8Aux_step {l : List Nat} (hne : l ≠ []) (f : Nat) :
    goValidUtf8Aux (f + 1) l =
      (!((goDecodeRune l).1 == 0xFFFD && (goDecodeRune l).2 == 1) &&
        goValidUtf8Aux f (l.drop (goDecodeRune l).2)) := by
  cases l with
  | nil => cases hne rfl
  | cons b rest => rfl

theorem goEncodeRunes_cons (r : Nat) (rest : List Nat) :
    goEncodeRunes (r :: rest) = goEncodeRune r ++ goEncodeRunes rest := by
  simp [goEncodeRunes]

theorem goDecodeRunes_encode {rs : List Nat} (h : ∀ r ∈ rs, validScalar r) :
    goDecodeRunes (goEncodeRunes rs) = rs := by
  induction rs with
  | nil => rfl
  | cons r rest ih =>
    have hr := h r (by simp)
    have hrest : ∀ x ∈ rest, validScalar x := fun x hx => h x (by simp [hx])
    rw [goDecodeRunes, goEncodeRunes_cons]
    have hpos := goEncodeRune_length_pos r
    have hne : goEncodeRune r ++ goEncodeRunes rest ≠ [] := by
      intro hc
      have hC : (goEncodeRune r ++ goEncodeRunes rest).length = 0 := by rw [hc]; rfl
      simp only [List.length_append] at hC
      omega
    obtain ⟨m, hm⟩ : ∃ m, (goEncodeRune r ++ goEncodeRunes rest).length = m + 1 := by
      refine ⟨(goEncodeRune r ++ goEncodeRunes rest).length - 1, ?_⟩
      simp only [List.length_append]
      omega
    rw [hm, goDecodeRunesAux_step hne m, goDecodeRune_encode hr]
    simp only [List.drop_left]
    have hlen : (goEncodeRunes rest).length ≤ m := by
      have := hm
      simp only [List.length_append] at this
      omega
    rw [goDecodeRunesAux_congr m (goEncodeRunes rest).length _ hlen le_rfl]
    rw [← goDecodeRunes]
    rw [ih hrest]

theorem goValidUtf8_encode {rs : List Nat} (h : ∀ r ∈ rs, validScalar r) :
    goValidUtf8 (goEncodeRunes rs) = true := by
  induction rs with
  | nil => rfl
  | cons r rest ih =>
    have hr := h r (by simp)
    have hrest : ∀ x ∈ rest, validScalar x := fun x hx => h x (by simp [hx])
    rw [goValidUtf8, goEncodeRunes_cons]
    have hpos := goEncodeRune_length_pos r
    have hne : goEncodeRune r ++ goEncodeRunes rest ≠ [] := by
      intro hc
      have hC : (goEncodeRune r ++ goEncodeRunes rest).length = 0 := by rw [hc]; rfl
      simp only [List.length_append] at hC
      omega
    obtain ⟨m, hm⟩ : ∃ m, (goEncodeRune r ++ goEncodeRunes rest).length = m + 1 := by
      refine ⟨(goEncodeRune r ++ goEncodeRunes rest).length - 1, ?_⟩
      simp only [List.length_append]
      omega
    rw [hm, goValidUtf8Aux_step hne m, goDecodeRune_encode hr]
    simp only [List.drop_left]
    have hstep : ((r == 0xFFFD) && ((goEncodeRune r).length == 1)) = false := by
      by_cases hr5 : r = 0xFFFD
      · subst hr5
        decide
      · simp [hr5]
    rw [hstep]
    have hlen : (goEncodeRunes rest).length ≤ m := by
      have := hm
      simp only [List.length_append] at this
      omega
    rw [goValidUtf8Aux_congr m (goEncodeRunes rest).length _ hlen le_rfl]
    rw [← goValidUtf8]
    simp [ih hrest]

theorem goDecodeRunesAux_mem_valid :
    ∀ (n : Nat) (l : List Nat), ∀ x ∈ goDecodeRunesAux n l, validScalar x := by
  intro n
  induction n with
  | zero =>
    intro l x hx
    cases l with
    | nil => cases hx
    | cons b rest => cases hx
  | succ n ih =>
    intro l x hx
    cases l with
    | nil =>
      rw [show goDecodeRunesAux (n + 1) ([] : List Nat) = [] from rfl] at hx
      cases hx
    | cons b rest =>
      rw [goDecodeRunesAux_step (by simp) n] at hx
      rcases List.mem_cons.mp hx with h1 | h1
      · rw [h1]
        exact goDecodeRune_fst_valid _
      · exact ih _ x h1

theorem goDecodeRunes_mem_valid (l : List Nat) : ∀ x ∈ goDecodeRunes l, validScalar x :=
  goDecodeRunesAux_mem_valid l.length l

theorem goMapRepl_valid_ne_zero {y : Nat} (h : validScalar y) :
    validScalar (goMapRepl y) ∧ goMapRepl y ≠ 0 := by
  unfold goMapRepl
  split
  · exact ⟨by unfold validScalar; omega, by omega⟩
  · next hcond => exact ⟨h, by omega⟩

theorem StringTable.get_sanitized {t : StringTable} {idx : Nat} {s : GoStr}
    (h : t.get idx = .ok s) : goValidUtf8 s = true ∧ 0 ∉ goDecodeRunes s := by
  unfold StringTable.get at h
  split at h
  · cases h
    exact ⟨rfl, by intro hc; cases hc⟩
  · split at h
    · cases h
    · dsimp only at h
      split at h
      · cases h
      · split at h
        · cases h
        next res heq =>
          cases h
          by_cases hcond : ¬goValidUtf8 res ∨ (goDecodeRunes res).contains 0
          · rw [if_pos hcond]
            have hmem : ∀ x ∈ (goDecodeRunes res).map goMapRepl, validScalar x := by
              intro x hx
              obtain ⟨y, hy, rfl⟩ := List.mem_map.mp hx
              exact (goMapRepl_valid_ne_zero (goDecodeRunes_mem_valid res y hy)).1
            constructor
            · exact goValidUtf8_encode hmem
            · rw [goDecodeRunes_encode hmem]
              intro hc
              obtain ⟨y, hy, hz⟩ := List.mem_map.mp hc
              exact (goMapRepl_valid_ne_zero (goDecodeRunes_mem_valid res y hy)).2 hz
          · rw [if_neg hcond]
            push_neg at hcond
            refine ⟨by simpa using hcond.1, ?_⟩
            have := hcond.2
            simpa using this

/-- C5 — counterexample: `parseStringTable` accepts a chunk whose single
stored string offset (16) points past the end of its empty data blob, and
`get 0` on the parsed table then returns an error even though index 0 is in
range, contradicting the claim that every in-range index decodes without
error. -/
theorem C5_counterexample :
    parseStringTable 24 c5input = .ok (⟨true, [16, 0, 0, 0], []⟩, 0, []) ∧
      (0 : Nat) < (⟨true, [16, 0, 0, 0], []⟩ : StringTable).stringOffsets.length / 4 ∧
      StringTable.get ⟨true, [16, 0, 0, 0], []⟩ 0 = .error (.stringOffsetOutOfBounds 0 16) := by
  refine ⟨by rfl, by decide, by rfl⟩

/-- C5 (amended): `get(0xFFFFFFFF)` returns the empty string without error;
`get(idx)` for any other index at or beyond the table's string count returns
an error; and whenever `get` succeeds, the returned string is valid UTF-8
and contains no NUL code point (each NUL or invalid code point having been
replaced by U+FFFE).  An in-range index can still fail when its stored
offset or string data is corrupt. -/
theorem C5_stringTableGet :
    (∀ t : StringTable, t.get 0xFFFFFFFF = .ok []) ∧
    (∀ (t : StringTable) (idx : Nat), idx ≠ 0xFFFFFFFF →
      t.stringOffsets.length / 4 % 2 ^ 32 ≤ idx →
      t.get idx = .error (.stringNotFound idx)) ∧
    (∀ (t : StringTable) (idx : Nat) (s : GoStr), t.get idx = .ok s →
      goValidUtf8 s = true ∧ 0 ∉ goDecodeRunes s) := by
  refine ⟨?_, ?_, ?_⟩
  · intro t
    rfl
  · intro t idx h1 h2
    unfold StringTable.get
    rw [if_neg h1, if_pos h2]
  · intro t idx s h
    exact StringTable.get_sanitized h

/-- C5 — witness: the sanitization conjunct applied to the sample pool
holding `"package"` at index 0. -/
theorem C5_witness :
    goValidUtf8 strPackage = true ∧ 0 ∉ goDecodeRunes strPackage :=
  C5_stringTableGet.2.2 samplePackagePool 0 strPackage (by rfl)

theorem parseChunkHeader_inv_error {data : List Nat} {e : ParseErr}
    (h : parseChunkHeader data = .error e) : e = .eof := by
  unfold parseChunkHeader at h
  split at h
  · cases h
  · cases h
    rfl

theorem parseChunkHeader_inv_ok {data : List Nat} {t : Nat × Nat × Nat × List Nat}
    (h : parseChunkHeader data = .ok t) :
    t = (leU16 data, leU16 (data.drop 2), leU32 (data.drop 4), data.drop 8) ∧
      8 ≤ data.length := by
  unfold parseChunkHeader at h
  split at h
  · cases h
    next hc => exact ⟨rfl, hc⟩
  · cases h

theorem natAnd255 (x : Nat) : x &&& 255 = x % 256 := by
  have := Nat.and_pow_two_sub_one_eq_mod x 8
  simpa using this

theorem plainTextProbe_bytes (a b c d e f g k : Nat) (rest : List Nat) :
    plainTextProbe (leU16 (a :: b :: c :: d :: e :: f :: g :: k :: rest))
        (leU16 ((a :: b :: c :: d :: e :: f :: g :: k :: rest).drop 2))
        (leU32 ((a :: b :: c :: d :: e :: f :: g :: k :: rest).drop 4)) =
      [a % 256, b % 256, c % 256, d % 256, e % 256, f % 256, g % 256, k % 256] := by
  unfold plainTextProbe leBytes2 leBytes4 leU16 leU32
  simp only [List.drop_succ_cons, List.drop_zero, List.getD_cons_zero, List.getD_cons_succ,
    List.cons_append, List.nil_append, List.cons.injEq]
  refine ⟨by omega, by omega, by omega, by omega, by omega, by omega, by omega, by omega, trivial⟩

theorem parseXml_check_iff {data : List Nat} (hlen : 8 ≤ data.length) :
    (leU16 data &&& 0xFF = 60 ∧
      (strXmlProbe.isPrefixOf
          (plainTextProbe (leU16 data) (leU16 (data.drop 2)) (leU32 (data.drop 4))) = true ∨
        strManifProbe.isPrefixOf
          (plainTextProbe (leU16 data) (leU16 (data.drop 2)) (leU32 (data.drop 4))) = true)) ↔
      plainTextCondition data := by
  rcases data with _ | ⟨a, _ | ⟨b, _ | ⟨c, _ | ⟨d, _ | ⟨e, _ | ⟨f, _ | ⟨g, _ | ⟨k, rest⟩⟩⟩⟩⟩⟩⟩⟩ <;>
    simp only [List.length_nil, List.length_cons] at hlen <;> try omega
  rw [plainTextProbe_bytes, natAnd255]
  unfold plainTextCondition strXmlProbe strManifProbe
  simp only [List.drop_succ_cons, List.drop_zero, List.getD_cons_zero, List.getD_cons_succ,
    List.take_succ_cons, List.take_zero, List.map_cons, List.map_nil, List.isPrefixOf,
    Bool.and_eq_true, beq_iff_eq, List.cons.injEq, and_true, leU16]
  constructor
  · rintro ⟨h1, h2⟩
    refine ⟨by omega, ?_⟩
    rcases h2 with h2 | h2
    · exact Or.inl (by omega)
    · exact Or.inr (by omega)
  · rintro ⟨h1, h2⟩
    refine ⟨by omega, ?_⟩
    rcases h2 with h2 | h2
    · exact Or.inl (by omega)
    · exact Or.inr (by omega)

theorem flushToExcept_ne_plainText {enc : GoEncoder}
    (hflush : ∀ h : List Tok, enc.flush h ≠ some .plainTextManifest) (hist : List Tok) :
    flushToExcept enc hist ≠ .error .plainTextManifest := by
  unfold flushToExcept
  split
  · intro hc
    cases hc
  · next e heq =>
    intro hc
    cases hc
    exact hflush hist heq

set_option maxHeartbeats 1000000 in
theorem parseXmlLoop_ne_plainText {enc : GoEncoder} {res : Option ResourceTableM}
    (hflush : ∀ h : List Tok, enc.flush h ≠ some .plainTextManifest) :
    ∀ (fuel totalLen i : Nat) (st : StringTable) (rids data : List Nat) (hist : List Tok),
      parseXmlLoop enc res fuel totalLen i st rids data hist ≠ .error .plainTextManifest := by
  intro fuel
  induction fuel with
  | zero =>
    intro totalLen i st rids data hist hc
    cases hc
  | succ f ih =>
    intro totalLen i st rids data hist hc
    unfold parseXmlLoop at hc
    split at hc
    · split at hc
      · next heq => cases hc
      · next heq =>
        split at hc
        · exact flushToExcept_ne_plainText hflush _ hc
        · next hprev => cases hc
        · split at hc
          · exact ih _ _ _ _ _ _ hc
          · cases hc
    · exact flushToExcept_ne_plainText hflush _ hc

/-- C1: an input whose first eight bytes pass the plaintext test (low id
byte `<` and ASCII prefix `<?xml ` or `<manif`) makes `ParseXml` return the
plain-text-manifest sentinel regardless of all later bytes (so only those
eight bytes are read), and an input failing the test never yields that
error from the header check (for any encoder whose `Flush` does not itself
produce the sentinel, the result is never that error at all). -/
theorem C1_plainTextDetection :
    (∀ (hdr rest : List Nat) (enc : GoEncoder) (res : Option ResourceTableM),
        hdr.length = 8 → plainTextCondition hdr →
        ParseXml (hdr ++ rest) enc res = .error .plainTextManifest) ∧
    (∀ (data : List Nat) (enc : GoEncoder) (res : Option ResourceTableM),
        (∀ h : List Tok, enc.flush h ≠ some .plainTextManifest) →
        ¬plainTextCondition data →
        ParseXml data enc res ≠ .error .plainTextManifest) := by
  constructor
  · intro hdr rest enc res hlen hcond
    rcases hdr with _ | ⟨a, _ | ⟨b, _ | ⟨c, _ | ⟨d, _ | ⟨e, _ | ⟨f, _ | ⟨g, _ | ⟨k, tail⟩⟩⟩⟩⟩⟩⟩⟩ <;>
      simp only [List.length_nil, List.length_cons] at hlen <;> try omega
    have htail : tail = [] := by
      cases tail
      · rfl
      · simp at hlen
    subst htail
    have hc2 : plainTextCondition ([a, b, c, d, e, f, g, k] ++ rest) := by
      unfold plainTextCondition at hcond ⊢
      simpa using hcond
    unfold ParseXml
    have hh : parseChunkHeader ([a, b, c, d, e, f, g, k] ++ rest) = .ok
        (leU16 ([a, b, c, d, e, f, g, k] ++ rest),
          leU16 (([a, b, c, d, e, f, g, k] ++ rest).drop 2),
          leU32 (([a, b, c, d, e, f, g, k] ++ rest).drop 4),
          ([a, b, c, d, e, f, g, k] ++ rest).drop 8) := by
      unfold parseChunkHeader
      rw [if_pos (by simp)]
    simp only [hh]
    rw [if_pos ((parseXml_check_iff (by simp)).mpr hc2)]
  · intro data enc res hflush hcond hcontra
    unfold ParseXml at hcontra
    cases hh : parseChunkHeader data with
    | error e =>
      simp only [hh] at hcontra
      have he := parseChunkHeader_inv_error hh
      subst he
      cases hcontra
    | ok t =>
      obtain ⟨ht, hlen8⟩ := parseChunkHeader_inv_ok hh
      subst ht
      simp only [hh] at hcontra
      by_cases hcnd : leU16 data &&& 0xFF = 60 ∧
          (strXmlProbe.isPrefixOf
              (plainTextProbe (leU16 data) (leU16 (data.drop 2)) (leU32 (data.drop 4))) = true ∨
            strManifProbe.isPrefixOf
              (plainTextProbe (leU16 data) (leU16 (data.drop 2)) (leU32 (data.drop 4))) = true)
      · exact hcond ((parseXml_check_iff hlen8).mp hcnd)
      · rw [if_neg hcnd] at hcontra
        exact parseXmlLoop_ne_plainText hflush _ _ _ _ _ _ _ hcontra

/-- C1 — witness: the plaintext sample triggers the sentinel after its first
eight bytes; the well-formed sample AXML does not produce it. -/
theorem C1_witness :
    ParseXml (samplePlainText.take 8 ++ samplePlainText.drop 8) collectEncoder none =
        .error .plainTextManifest ∧
      ParseXml sampleAxml collectEncoder none ≠ .error .plainTextManifest :=
  ⟨C1_plainTextDetection.1 (samplePlainText.take 8) (samplePlainText.drop 8) collectEncoder none
      (by decide) (by decide),
    C1_plainTextDetection.2 sampleAxml collectEncoder none
      (fun h => by simp [collectEncoder]) (by decide)⟩
/-- C10: when a chunk body parser inside `ParseXml` reports the distinguished
`endParsing` sentinel, the chunk loop breaks out immediately — it does not
read any further chunks — and the overall result is exactly the result of
flushing the encoder; in particular the sentinel itself is never surfaced as
an error: if the flush reports no error, the whole parse succeeds. -/
theorem C10_endParsingStopsLoop
    (enc : GoEncoder) (res : Option ResourceTableM) (fuel totalLen i : Nat)
    (st : StringTable) (rids data : List Nat) (hist : List Tok)
    (id hlen len : Nat) (rest : List Nat) (st2 : StringTable) (rids2 : List Nat)
    (hist2 : List Tok)
    (hlt : i < totalLen)
    (hh : parseChunkHeader data = .ok (id, hlen, len, rest))
    (hbody : parseXmlChunkBody enc res st rids id ((len : Int) - 2 * 4) rest hist =
      (st2, rids2, hist2, .error .endParsing)) :
    parseXmlLoop enc res (fuel + 1) totalLen i st rids data hist =
      flushToExcept enc hist2 ∧
    (enc.flush hist2 = none →
      parseXmlLoop enc res (fuel + 1) totalLen i st rids data hist = .ok ()) := by
  have hmain : parseXmlLoop enc res (fuel + 1) totalLen i st rids data hist =
      flushToExcept enc hist2 := by
    show (if i < totalLen then
        match parseChunkHeader data with
        | .error e => .error (.headerError i totalLen e)
        | .ok (id, _, len, rest) =>
          match parseXmlChunkBody enc res st rids id ((len : Int) - 2 * 4) rest hist with
          | (st2, rids2, hist2, .error .endParsing) =>
            have := st2
            have := rids2
            flushToExcept enc hist2
          | (_, _, _, .error e) => .error (.chunkError id e)
          | (st2, rids2, hist2, .ok (lim2, data2)) =>
            if lim2 = 0 then
              parseXmlLoop enc res fuel totalLen ((i + len) % 2 ^ 32) st2 rids2 data2 hist2
            else .error (.chunkNotFullyRead id)
        else flushToExcept enc hist) = flushToExcept enc hist2
    rw [if_pos hlt]
    simp only [hh, hbody]
  refine ⟨hmain, fun hflush => ?_⟩
  rw [hmain]
  unfold flushToExcept
  rw [hflush]

/-- Concrete witness for `C10_endParsingStopsLoop`: the sample tag-start chunk
parsed with an encoder whose `EncodeToken` always reports the sentinel. -/
theorem C10_witness :
    parseXmlLoop endParsingEncoder none 1 56 0 sampleStrTable [] sampleTagChunk [] =
      flushToExcept endParsingEncoder
        [Tok.startElement [97] []
          [⟨[], [110], [64, 55, 102, 48, 48, 48, 48, 48, 49]⟩]] ∧
    parseXmlLoop endParsingEncoder none 1 56 0 sampleStrTable [] sampleTagChunk [] = .ok () := by
  have h := C10_endParsingStopsLoop endParsingEncoder none 0 56 0 sampleStrTable []
    sampleTagChunk [] 258 16 56 (sampleTagChunk.drop 8) sampleStrTable []
    [Tok.startElement [97] [] [⟨[], [110], [64, 55, 102, 48, 48, 48, 48, 48, 49]⟩]]
    (by decide) (by rfl) (by rfl)
  exact ⟨h.1, h.2 (by rfl)⟩
/-- C3: attribute-name resolution in `parseTagStart`: the name derived from the
resource-id table is preferred; inside a `manifest` tag a pool string that was
read successfully overrides it exactly when it equals `package` or starts with
`platformBuildVersion`; in every other case (non-override pool string, pool
read error, or a tag other than `manifest`) the resource-id name is kept and an
empty namespace is replaced by the android namespace URI. -/
theorem C3_attrNameResolution
    (strings : StringTable) (rids : List Nat) (tag : GoStr) (attr : ResAttr)
    (rn ns : GoStr)
    (hidx : attr.nameIdx < rids.length)
    (hrn : getAttributteName (rids.getD attr.nameIdx 0) = rn)
    (hrnne : rn ≠ [])
    (hns : strings.get attr.namespaceId = .ok ns) :
    (∀ s, tag = strManifest → strings.get attr.nameIdx = .ok s →
      (s = strPackage ∨ strPlatformBuildVersion.isPrefixOf s = true) →
      parseTagStartAttrName strings rids tag attr = .ok (s, ns)) ∧
    (∀ s, tag = strManifest → strings.get attr.nameIdx = .ok s →
      ¬(s = strPackage ∨ strPlatformBuildVersion.isPrefixOf s = true) →
      parseTagStartAttrName strings rids tag attr =
        .ok (rn, if ns = [] then strAndroidNs else ns)) ∧
    (∀ e, tag = strManifest → strings.get attr.nameIdx = .error e →
      parseTagStartAttrName strings rids tag attr =
        .ok (rn, if ns = [] then strAndroidNs else ns)) ∧
    (tag ≠ strManifest →
      parseTagStartAttrName strings rids tag attr =
        .ok (rn, if ns = [] then strAndroidNs else ns)) := by
  refine ⟨?_, ?_, ?_, ?_⟩
  · intro s htag hgets hover
    have hsne : s ≠ [] := by
      rcases hover with h1 | h2
      · subst h1; decide
      · rcases List.isPrefixOf_iff_prefix.mp h2 with ⟨t, ht⟩
        intro hnil
        rw [hnil] at ht
        have hl := congrArg List.length ht
        simp [strPlatformBuildVersion] at hl
    subst htag
    unfold parseTagStartAttrName
    dsimp only
    rw [if_pos hidx, hrn, if_pos (Or.inr rfl), hgets]
    dsimp only
    rw [if_pos (Or.inr hover)]
    dsimp only
    rw [hns]
    dsimp only
    rw [if_neg hsne]
  · intro s htag hgets hover
    subst htag
    unfold parseTagStartAttrName
    dsimp only
    rw [if_pos hidx, hrn, if_pos (Or.inr rfl), hgets]
    dsimp only
    rw [if_neg (by rintro (h | h); exact hrnne h; exact hover h)]
    dsimp only
    rw [hns]
    dsimp only
    rw [if_pos rfl]
    by_cases hnse : ns = [] <;> simp [hnse]
  · intro e htag hgets
    subst htag
    unfold parseTagStartAttrName
    dsimp only
    rw [if_pos hidx, hrn, if_pos (Or.inr rfl), hgets]
    dsimp only
    rw [if_neg hrnne]
    dsimp only
    rw [hns]
    dsimp only
    rw [if_pos rfl]
    by_cases hnse : ns = [] <;> simp [hnse]
  · intro htagne
    unfold parseTagStartAttrName
    dsimp only
    rw [if_pos hidx, hrn,
      if_neg (by rintro (h | h); exact hrnne h; exact htagne h)]
    dsimp only
    rw [hns]
    dsimp only
    rw [if_pos rfl]
    by_cases hnse : ns = [] <;> simp [hnse]

/-- Concrete witness for `C3_attrNameResolution`: inside a `manifest` tag the
pool string `package` overrides the resource-id name `versionCode`. -/
theorem C3_witness :
    parseTagStartAttrName samplePackagePool [0x0101021B] strManifest
      ⟨0xFFFFFFFF, 0, 0, 8, 0, 1, 5⟩ = .ok (strPackage, []) := by
  have h := (C3_attrNameResolution samplePackagePool [0x0101021B] strManifest
    ⟨0xFFFFFFFF, 0, 0, 8, 0, 1, 5⟩ strVersionCode [] (by decide) (by rfl)
    (by decide) (by rfl)).1 strPackage rfl (by rfl) (Or.inl rfl)
  exact h
/-- C4 counterexample: a resource table whose lookup succeeds with an empty
string.  The reference attribute keeps the empty value — the `@<hex>`
placeholder is NOT substituted, because the code requires the string
conversion to have failed (`!isValidString`) in addition to the value being
empty, contrary to the claim that an empty resolved value alone triggers the
placeholder. -/
theorem C4_counterexample :
    parseTagStartAttrValue (some emptyResolvingTable) emptyStringTable []
      ⟨0, 0, 0, 8, 0, 1, 5⟩ = .ok [] ∧
    ([] : GoStr) ≠ [64] ++ goHex 5 := by
  exact ⟨by rfl, by decide⟩

set_option maxRecDepth 100000 in
/-- C4 (amended): for a reference-typed attribute (`TypeReference = 0x01`) the
value formatter never fails; the `@<hex>` placeholder is produced exactly when
no resource table is present, the table lookup fails, or the entry's string
conversion fails; when the string conversion succeeds its result is kept
verbatim — including the empty string.  The sample manifest parses without any
reference-resolution failure. -/
theorem C4_referenceBestEffort :
    (∀ (strings : StringTable) (nm : GoStr) (attr : ResAttr),
      attr.resType = 0x01 →
      parseTagStartAttrValue none strings nm attr = .ok ([64] ++ goHex attr.resData)) ∧
    (∀ (t : ResourceTableM) (strings : StringTable) (nm : GoStr) (attr : ResAttr)
      (e : ParseErr),
      attr.resType = 0x01 →
      (if nm = strIcon ∨ nm = strRoundIcon then t.getIconPng attr.resData
       else t.getResourceEntry attr.resData) = .error e →
      parseTagStartAttrValue (some t) strings nm attr = .ok ([64] ++ goHex attr.resData)) ∧
    (∀ (t : ResourceTableM) (strings : StringTable) (nm : GoStr) (attr : ResAttr)
      (ent : ResourceEntryM) (e2 : ParseErr),
      attr.resType = 0x01 →
      (if nm = strIcon ∨ nm = strRoundIcon then t.getIconPng attr.resData
       else t.getResourceEntry attr.resData) = .ok ent →
      ent.valueStr = .error e2 →
      parseTagStartAttrValue (some t) strings nm attr = .ok ([64] ++ goHex attr.resData)) ∧
    (∀ (t : ResourceTableM) (strings : StringTable) (nm : GoStr) (attr : ResAttr)
      (ent : ResourceEntryM) (s : GoStr),
      attr.resType = 0x01 →
      (if nm = strIcon ∨ nm = strRoundIcon then t.getIconPng attr.resData
       else t.getResourceEntry attr.resData) = .ok ent →
      ent.valueStr = .ok s →
      parseTagStartAttrValue (some t) strings nm attr = .ok s) ∧
    ParseXml sampleAxml collectEncoder none = .ok () := by
  refine ⟨?_, ?_, ?_, ?_, by rfl⟩
  · intro strings nm attr htype
    unfold parseTagStartAttrValue
    rw [htype]
    rw [if_neg (by decide), if_neg (by decide), if_neg (by decide),
      if_neg (by decide), if_pos rfl]
    dsimp only
    rw [if_pos ⟨rfl, rfl⟩]
  · intro t strings nm attr e htype hlook
    unfold parseTagStartAttrValue
    rw [htype]
    rw [if_neg (by decide), if_neg (by decide), if_neg (by decide),
      if_neg (by decide), if_pos rfl]
    dsimp only
    rw [hlook]
    dsimp only
    rw [if_pos ⟨rfl, rfl⟩]
  · intro t strings nm attr ent e2 htype hlook hval
    unfold parseTagStartAttrValue
    rw [htype]
    rw [if_neg (by decide), if_neg (by decide), if_neg (by decide),
      if_neg (by decide), if_pos rfl]
    dsimp only
    rw [hlook]
    dsimp only
    rw [hval]
    dsimp only
    rw [if_pos ⟨rfl, rfl⟩]
  · intro t strings nm attr ent s htype hlook hval
    unfold parseTagStartAttrValue
    rw [htype]
    rw [if_neg (by decide), if_neg (by decide), if_neg (by decide),
      if_neg (by decide), if_pos rfl]
    dsimp only
    rw [hlook]
    dsimp only
    rw [hval]
    dsimp only
    rw [if_neg (by intro hc; cases hc.1)]

/-- Concrete witness for `C4_referenceBestEffort`: with no resource table a
reference attribute with data `0x7F000001` formats as the placeholder. -/
theorem C4_witness :
    parseTagStartAttrValue none emptyStringTable [] ⟨0, 0, 0, 8, 0, 1, 0x7F000001⟩ =
      .ok ([64] ++ goHex 0x7F000001) :=
  C4_referenceBestEffort.1 emptyStringTable [] ⟨0, 0, 0, 8, 0, 1, 0x7F000001⟩ rfl
/-- The retry loop of `ApkParser.ParseXml` succeeds as soon as one sub-entry
parses, whatever error was accumulated before. -/
theorem apkLoop_ok {α : Type} (parse : α → Except ParseErr Unit) (e : α)
    (post : List α) (hok : parse e = .ok ()) :
    ∀ (pre : List α) (acc : Option ParseErr),
      (∀ x ∈ pre, ∃ er, parse x = .error er) →
      ApkParserParseXmlLoop parse (pre ++ e :: post) acc = .ok () := by
  intro pre
  induction pre with
  | nil =>
    intro acc _
    show ApkParserParseXmlLoop parse (e :: post) acc = .ok ()
    unfold ApkParserParseXmlLoop
    rw [hok]
  | cons a pre2 ih =>
    intro acc hfail
    obtain ⟨er, her⟩ := hfail a (by simp)
    show ApkParserParseXmlLoop parse (a :: (pre2 ++ e :: post)) acc = .ok ()
    unfold ApkParserParseXmlLoop
    rw [her]
    exact ih (some er) (fun x hx => hfail x (by simp [hx]))

/-- When every sub-entry fails, the retry loop of `ApkParser.ParseXml` reports
the error of the LAST attempt: the plaintext sentinel verbatim, anything else
wrapped in `failedToParse`. -/
theorem apkLoop_fail {α : Type} (parse : α → Except ParseErr Unit) (x : α)
    (le : ParseErr) (hx : parse x = .error le) :
    ∀ (init : List α) (acc : Option ParseErr),
      (∀ y ∈ init, ∃ er, parse y = .error er) →
      ApkParserParseXmlLoop parse (init ++ [x]) acc =
        if le = ParseErr.plainTextManifest then .error .plainTextManifest
        else .error (.failedToParse le) := by
  intro init
  induction init with
  | nil =>
    intro acc _
    show ApkParserParseXmlLoop parse (x :: []) acc = _
    unfold ApkParserParseXmlLoop
    rw [hx]
    show ApkParserParseXmlLoop parse [] (some le) = _
    unfold ApkParserParseXmlLoop
    by_cases hle : le = ParseErr.plainTextManifest
    · subst hle
      rw [if_pos rfl, if_pos rfl]
    · rw [if_neg (fun hc => hle (Option.some.inj hc)), if_neg hle]
  | cons a init2 ih =>
    intro acc hfail
    obtain ⟨er, her⟩ := hfail a (by simp)
    show ApkParserParseXmlLoop parse (a :: (init2 ++ [x])) acc = _
    unfold ApkParserParseXmlLoop
    rw [her]
    exact ih (some er) (fun y hy => hfail y (by simp [hy]))

/-- C2 (amended): `ApkParser.ParseXml` retries every `AndroidManifest.xml`
sub-entry in order and succeeds as soon as ONE attempt succeeds; when all
attempts fail it reports the error of the LAST attempt — returned verbatim if
it is the plaintext-manifest sentinel and wrapped in `failedToParse`
otherwise (earlier attempts' errors, including the sentinel, are discarded);
a missing manifest entry yields `fileNotFound`. -/
theorem C2_retryLastError :
    (∀ (α : Type) (parse : α → Except ParseErr Unit) (pre : List α) (e : α)
      (post : List α),
      (∀ x ∈ pre, ∃ er, parse x = .error er) → parse e = .ok () →
      ApkParserParseXml parse (some (pre ++ e :: post)) = .ok ()) ∧
    (∀ (α : Type) (parse : α → Except ParseErr Unit) (init : List α) (x : α)
      (le : ParseErr),
      (∀ y ∈ init, ∃ er, parse y = .error er) → parse x = .error le →
      ApkParserParseXml parse (some (init ++ [x])) =
        if le = ParseErr.plainTextManifest then .error .plainTextManifest
        else .error (.failedToParse le)) ∧
    (∀ (α : Type) (parse : α → Except ParseErr Unit),
      ApkParserParseXml parse (none : Option (List α)) = .error .fileNotFound) := by
  refine ⟨?_, ?_, ?_⟩
  · intro α parse pre e post hfail hok
    exact apkLoop_ok parse e post hok pre none hfail
  · intro α parse init x le hfail hx
    exact apkLoop_fail parse x le hx init none hfail
  · intro α parse
    rfl

/-- C2 counterexample: a file whose first `AndroidManifest.xml` sub-entry is a
plaintext manifest and whose second is empty.  The first attempt reports the
plaintext sentinel, but `ApkParser.ParseXml` discards it: only the LAST error
(`eof` from the empty entry) is reported, wrapped in `failedToParse` — the
sentinel does not propagate even though a plaintext manifest was seen. -/
theorem C2_counterexample :
    ParseXml samplePlainText collectEncoder none = .error .plainTextManifest ∧
    ApkParserParseXml (fun d => ParseXml d collectEncoder none)
        (some [samplePlainText, ([] : List Nat)]) =
      .error (.failedToParse .eof) ∧
    ApkParserParseXml (fun d => ParseXml d collectEncoder none)
        (some [samplePlainText, ([] : List Nat)]) ≠ .error .plainTextManifest := by
  refine ⟨by rfl, by rfl, ?_⟩
  intro hc
  rw [show ApkParserParseXml (fun d => ParseXml d collectEncoder none)
      (some [samplePlainText, ([] : List Nat)]) = .error (.failedToParse .eof)
    from rfl] at hc
  cases hc

set_option maxRecDepth 100000 in
/-- Concrete witness for `C2_retryLastError`: an empty first sub-entry fails,
the second sub-entry is the sample binary manifest and parses, so the whole
call succeeds. -/
theorem C2_witness :
    ApkParserParseXml (fun d => ParseXml d collectEncoder none)
      (some ([([] : List Nat)] ++ sampleAxml :: [])) = .ok () :=
  C2_retryLastError.1 (List Nat) (fun d => ParseXml d collectEncoder none)
    [[]] sampleAxml []
    (fun x hx => ⟨.eof, by simp at hx; rw [hx]; rfl⟩) (by rfl)
/-- Dropping `j` elements and reading a cons determines the element at `j`. -/
theorem zip_drop_cons {file : List Nat} {j b : Nat} {rest : List Nat}
    (h : b :: rest = file.drop j) :
    file.getD j 0 = b ∧ file.drop (j + 1) = rest := by
  induction j generalizing file with
  | zero =>
    simp only [List.drop_zero] at h
    subst h
    exact ⟨rfl, rfl⟩
  | succ j ih =>
    cases file with
    | nil => simp at h
    | cons f fs =>
      simp only [List.drop_succ_cons] at h
      have h2 := ih h
      exact ⟨by simpa [List.getD_cons_succ] using h2.1,
        by simpa [List.drop_succ_cons] using h2.2⟩

/-- Soundness of the byte-wise signature matcher: a reported match is a true
occurrence of the four signature bytes inside the file, located at or after
the position the partial match started from. -/
theorem zipScanSig_sound (file : List Nat) :
    ∀ (l : List Nat) (ok j off : Nat),
      l = file.drop j → ok ≤ 3 → ok ≤ j →
      (∀ m, m < ok → file.getD (j - ok + m) 0 % 256 = zipSig.getD m 0) →
      zipScanSig l ok j = some off →
      j - ok ≤ off ∧ off + 4 ≤ file.length ∧
        (∀ m, m < 4 → file.getD (off + m) 0 % 256 = zipSig.getD m 0) := by
  intro l
  induction l with
  | nil =>
    intro ok j off _ _ _ _ h
    simp [zipScanSig] at h
  | cons b rest ih =>
    intro ok j off hdrop hok3 hokj hbytes h
    obtain ⟨hb, hrest⟩ := zip_drop_cons hdrop
    simp only [zipScanSig] at h
    split at h
    · next hmatch =>
      split at h
      · next hok =>
        injection h with h2
        subst h2
        subst hok
        have hjlen : j < file.length := by
          by_contra hge
          push_neg at hge
          rw [List.drop_eq_nil_of_le hge] at hdrop
          cases hdrop
        refine ⟨Nat.le_refl _, by omega, ?_⟩
        intro m hm
        interval_cases m
        · exact hbytes 0 (by omega)
        · exact hbytes 1 (by omega)
        · exact hbytes 2 (by omega)
        · rw [show j - 3 + 3 = j from by omega, hb]
          exact hmatch
      · next hokne =>
        have hbytes2 : ∀ m, m < ok + 1 →
            file.getD (j + 1 - (ok + 1) + m) 0 % 256 = zipSig.getD m 0 := by
          intro m hm
          rw [show j + 1 - (ok + 1) + m = j - ok + m from by omega]
          rcases Nat.lt_or_ge m ok with hmo | hmo
          · exact hbytes m hmo
          · have hme : m = ok := by omega
            rw [hme, show j - ok + ok = j from by omega, hb]
            exact hmatch
        have hrec := ih (ok + 1) (j + 1) off hrest.symm (by omega) (by omega) hbytes2 h
        exact ⟨by have := hrec.1; omega, hrec.2.1, hrec.2.2⟩
    · next hmatch =>
      have hrec := ih 0 (j + 1) off hrest.symm (by omega) (by omega)
        (fun m hm => absurd hm (Nat.not_lt_zero m)) h
      exact ⟨by have := hrec.1; omega, hrec.2.1, hrec.2.2⟩

/-- Association lookup after the per-key map update used by `zipRecordEntry`. -/
theorem assocLookup_map_update {β : Type} (name : GoStr) (f : β → β) :
    ∀ (m : List (GoStr × β)) (k : GoStr),
      assocLookup (m.map (fun pr => if pr.1 = name then (pr.1, f pr.2) else pr)) k =
        if k = name then (assocLookup m k).map f else assocLookup m k := by
  intro m
  induction m with
  | nil =>
    intro k
    simp [assocLookup]
  | cons pr rest ih =>
    intro k
    obtain ⟨k2, v⟩ := pr
    simp only [List.map_cons]
    by_cases h2 : k2 = name
    · rw [if_pos h2]
      simp only [assocLookup]
      by_cases hk : k2 = k
      · rw [if_pos hk, if_pos hk, if_pos (hk.symm.trans h2)]
        rfl
      · rw [if_neg hk, if_neg hk]
        exact ih k
    · rw [if_neg h2]
      simp only [assocLookup]
      by_cases hk : k2 = k
      · have hn : ¬k = name := fun hc => h2 (hk.trans hc)
        rw [if_pos hk, if_neg hn, if_pos hk]
      · rw [if_neg hk, if_neg hk]
        exact ih k

/-- Association lookup after appending a fresh single binding. -/
theorem assocLookup_append_single {β : Type} (name k : GoStr) (v : β) :
    ∀ m : List (GoStr × β),
      assocLookup (m ++ [(name, v)]) k =
        match assocLookup m k with
        | some l => some l
        | none => if name = k then some v else none := by
  intro m
  induction m with
  | nil =>
    simp [assocLookup]
  | cons pr rest ih =>
    obtain ⟨k2, w⟩ := pr
    by_cases h2 : k2 = k
    · simp [assocLookup, h2]
    · simp [assocLookup, h2, ih]

/-- `zipRecordEntry` preserves the prepend/discovery-order correspondence:
the per-cleaned-name sub-entry list is the reverse of the discovery order
restricted to that name. -/
theorem zipRecordEntry_inv (st : ZipScanState) (name : GoStr) (se : ZipSubEntry)
    (hinv : ∀ k, (assocLookup st.fileMap k).getD [] =
      ((st.ordered.filter (fun pr => pr.1 = k)).map (fun pr => pr.2)).reverse) :
    ∀ k, (assocLookup (zipRecordEntry st name se).fileMap k).getD [] =
      (((zipRecordEntry st name se).ordered.filter (fun pr => pr.1 = k)).map
        (fun pr => pr.2)).reverse := by
  intro k
  unfold zipRecordEntry
  dsimp only
  cases hmap : assocLookup st.fileMap name with
  | some l =>
    rw [assocLookup_map_update name (fun l2 => se :: l2) st.fileMap k]
    by_cases hk : k = name
    · subst hk
      rw [if_pos rfl, hmap]
      have h := hinv k
      rw [hmap] at h
      simp only [Option.getD_some] at h
      simp [List.filter_append, ← h]
    · rw [if_neg hk]
      have h := hinv k
      rw [h]
      have hkn : ¬name = k := fun hc => hk hc.symm
      simp [List.filter_append, hkn]
  | none =>
    rw [assocLookup_append_single name k [se] st.fileMap]
    by_cases hk : k = name
    · subst hk
      rw [hmap]
      have h := hinv k
      rw [hmap] at h
      simp only [Option.getD_none] at h
      simp [List.filter_append, ← h]
    · cases hmk : assocLookup st.fileMap k with
      | some l =>
        have h := hinv k
        rw [hmk] at h
        simp only [Option.getD_some] at h
        have hkn : ¬name = k := fun hc => hk hc.symm
        simp [hmk, h, List.filter_append, hkn]
      | none =>
        have h := hinv k
        rw [hmk] at h
        simp only [Option.getD_none] at h
        have hkn : ¬name = k := fun hc => hk hc.symm
        simp [hmk, hkn, List.filter_append, ← h]

/-- The fallback scan loop preserves the prepend/discovery-order
correspondence. -/
theorem openZipFallbackLoop_inv (file : List Nat) :
    ∀ (fuel p : Nat) (st : ZipScanState),
      (∀ k, (assocLookup st.fileMap k).getD [] =
        ((st.ordered.filter (fun pr => pr.1 = k)).map (fun pr => pr.2)).reverse) →
      ∀ k, (assocLookup (openZipFallbackLoop file fuel p st).1.fileMap k).getD [] =
        (((openZipFallbackLoop file fuel p st).1.ordered.filter
          (fun pr => pr.1 = k)).map (fun pr => pr.2)).reverse := by
  intro fuel
  induction fuel with
  | zero =>
    intro p st hinv k
    exact hinv k
  | succ fuel ih =>
    intro p st hinv k
    unfold openZipFallbackLoop
    cases hfind : findNextFileHeader file p with
    | none => exact hinv k
    | some off =>
      dsimp only
      cases hm : readAtU16 file (off + 8) with
      | none => exact hinv k
      | some method =>
        dsimp only
        cases hn : readAtU16 file (off + 26) with
        | none => exact hinv k
        | some nameLen =>
          dsimp only
          cases he : readAtU16 file (off + 28) with
          | none => exact hinv k
          | some extraLen =>
            dsimp only
            cases hb : readAtBytes file (off + 30) nameLen with
            | none => exact hinv k
            | some nameBytes =>
              dsimp only
              exact ih (off + 4)
                (zipRecordEntry st (goPathClean nameBytes)
                  ⟨off + 30 + nameLen + extraLen, method⟩)
                (zipRecordEntry_inv st (goPathClean nameBytes)
                  ⟨off + 30 + nameLen + extraLen, method⟩ hinv) k

/-- C6 (amended): the fallback local-header scan of `OpenZipReader` is sound
but not exhaustive.  (1) Every match reported by `findNextFileHeader` is a
genuine occurrence of `50 4B 03 04` at or after the scan position, inside the
file.  (2) At a match `off` the loop reads the method at `off+8`, the name
length at `off+26`, the extra length at `off+28` and the name at `off+30`,
records a sub-entry with payload offset `off+30+nameLen+extraLen` under the
cleaned name, and resumes scanning at `off+4`.  (3) Prepending makes the
per-cleaned-name sub-entry list exactly the reverse of the discovery order,
so of two sub-entries sharing a name the later-discovered one is tried
first.  The claim's "visits every occurrence" part is refuted by
`C6_counterexample`. -/
theorem C6_fallbackScan :
    (∀ (file : List Nat) (p off : Nat),
      findNextFileHeader file p = some off →
      p ≤ off ∧ off + 4 ≤ file.length ∧
        ∀ m, m < 4 → file.getD (off + m) 0 % 256 = zipSig.getD m 0) ∧
    (∀ (file : List Nat) (fuel p : Nat) (st : ZipScanState)
      (off method nameLen extraLen : Nat) (nm : GoStr),
      findNextFileHeader file p = some off →
      readAtU16 file (off + 8) = some method →
      readAtU16 file (off + 26) = some nameLen →
      readAtU16 file (off + 28) = some extraLen →
      readAtBytes file (off + 30) nameLen = some nm →
      openZipFallbackLoop file (fuel + 1) p st =
        openZipFallbackLoop file fuel (off + 4)
          (zipRecordEntry st (goPathClean nm)
            ⟨off + 30 + nameLen + extraLen, method⟩)) ∧
    (∀ (file : List Nat) (k : GoStr),
      (assocLookup (openZipFallback file).1.fileMap k).getD [] =
        (((openZipFallback file).1.ordered.filter (fun pr => pr.1 = k)).map
          (fun pr => pr.2)).reverse) := by
  refine ⟨?_, ?_, ?_⟩
  · intro file p off h
    have hs := zipScanSig_sound file (file.drop p) 0 p off rfl (by omega) (by omega)
      (fun m hm => absurd hm (Nat.not_lt_zero m)) h
    exact ⟨by have := hs.1; omega, hs.2.1, hs.2.2⟩
  · intro file fuel p st off method nameLen extraLen nm hfind hm hn he hb
    unfold openZipFallbackLoop
    rw [hfind]
    dsimp only
    rw [hm]
    dsimp only
    rw [hn]
    dsimp only
    rw [he]
    dsimp only
    rw [hb]
    cases fuel <;> rfl
  · intro file k
    exact openZipFallbackLoop_inv file (file.length + 1) 0 ⟨[], []⟩
      (fun k2 => by simp [assocLookup]) k

/-- C6 counterexample: `c6file` contains the signature `50 4B 03 04` at
offset 1, yet the fallback scan records nothing — after consuming the first
`0x50` as a partial match, the mismatching byte is not re-examined, so the
overlapping occurrence is skipped and the scan does NOT visit every
occurrence of the signature. -/
theorem C6_counterexample :
    (∀ m, m < 4 → c6file.getD (1 + m) 0 % 256 = zipSig.getD m 0) ∧
    openZipFallback c6file = (⟨[], []⟩, false) := by
  constructor
  · intro m hm
    interval_cases m <;> rfl
  · rfl

set_option maxRecDepth 10000 in
/-- Concrete witness for `C6_fallbackScan`: the single well-formed local
header of `c6okFile` at offset 0 (method 9, name `"a"`, no extra field,
payload at offset 31). -/
theorem C6_witness :
    (0 ≤ 0 ∧ 0 + 4 ≤ c6okFile.length ∧
      ∀ m, m < 4 → c6okFile.getD (0 + m) 0 % 256 = zipSig.getD m 0) ∧
    openZipFallbackLoop c6okFile (33 + 1) 0 ⟨[], []⟩ =
      openZipFallbackLoop c6okFile 33 (0 + 4)
        (zipRecordEntry ⟨[], []⟩ (goPathClean [97]) ⟨0 + 30 + 1 + 0, 9⟩) :=
  ⟨C6_fallbackScan.1 c6okFile 0 0 (by rfl),
   C6_fallbackScan.2.1 c6okFile 33 0 ⟨[], []⟩ 0 9 1 0 [97]
     (by rfl) (by rfl) (by rfl) (by rfl) (by rfl)⟩
